import Mathlib

/-!
JDSL transpiler: the two assembly engines.

A shallow embedding of `src/manifest.go`, `src/transpiler.go` (package `jdsl`, the older
engine) and `src/transpiler/transpiler.go` (package `transpiler`, the newer engine).

Conventions of the embedding.

* A Go `string` / `[]byte` is a Lean `String`; `+` is `++`.
* A Go `error` is its message (`err.Error()`), a `String`; `fmt.Errorf("ctx: %s", err)`
  is `"ctx: " ++ err`.
* A Go function returning `error` is a `Run Unit`: a function from the state of the outside
  world to a result and the state it leaves behind.  The state is kept when the function
  fails, so what a failed unit has already written stays observable.
* The collaborators that are not part of the repository (`os`, `encoding/json`, `go-git`,
  `path/filepath.Join` and `Dir`, `context`) are fields of `Env` and of `Repository`, or the
  `Ctx` argument.  Every call on `os` and on the repository is recorded in `State.calls`.
-/

namespace JDSL

/-! ## Data model -/

/-- The struct `Manifest` of `src/manifest.go`. -/
structure Manifest where
  File : String
  Class : String
  Author : String
  Purpose : String
  Functions : List String
deriving DecidableEq, Repr

/-- What an `io.ReadCloser` over a blob delivers: `data`, then end of file (`err = none`) or a
read error. -/
structure Reader where
  data : String
  err : Option String
deriving DecidableEq, Repr

/-- A go-git `*object.File`: `Reader()` yields a reader or an error. -/
structure BlobFile where
  Reader : Except String Reader

/-- A go-git `*object.Commit`: `File(path)` yields the file at that path or an error. -/
structure Commit where
  File : String → Except String BlobFile

/-- A go-git `*git.Repository`: `CommitObject(hash)` yields a commit or an error. -/
structure Repository where
  CommitObject : String → Except String Commit

/-- The collaborators outside the repository.  The manifests are inputs of a run: they are
read through `ReadFile` and are not among the files the run writes. -/
structure Env where
  /-- The function `os.ReadFile`. -/
  ReadFile : String → Except String String
  /-- The function `json.Unmarshal` into a zero `Manifest`. -/
  Unmarshal : String → Except String Manifest
  /-- The function `git.PlainOpen`. -/
  PlainOpen : String → Except String Repository
  /-- The function `plumbing.NewHash`. -/
  NewHash : String → String
  /-- The error of `os.MkdirAll` on a path, if any. -/
  MkdirAll : String → Option String
  /-- The error of `os.Create` on a path, if any. -/
  Create : String → Option String
  /-- Failure of a `Write`: for the file at a path holding `cur`, asked to take `p`, either
  `none` (all of `p` is taken) or `some (n, err)` (only the first `n` bytes are taken). -/
  writeFault : String → String → String → Option (Nat × String)
  /-- The function `filepath.Join` of two elements. -/
  Join : String → String → String
  /-- The function `filepath.Dir`. -/
  Dir : String → String

/-- A call on a collaborator, as recorded in the state. -/
inductive Call where
  | ReadFile (path : String)
  | MkdirAll (path : String)
  | Create (path : String)
  | Write (path : String) (p : String)
  | PlainOpen (root : String)
  | CommitObject (hash : String)
  | File (hash : String) (path : String)
  | Reader (hash : String) (path : String)
deriving DecidableEq, Repr

/-- The outside world a run acts on: the files it has created (path to content), the
standard output, and the calls made so far. -/
structure State where
  files : String → Option String
  stdout : String
  calls : List Call

/-- A state in which nothing has happened yet. -/
def State.init : State := ⟨fun _ => none, "", []⟩

/-- A Go function with effects on the outside world that may return an error. -/
def Run (α : Type) : Type := State → Except String α × State

/-- Sequencing: an error ends the function, the state reached so far is kept. -/
def Run.bind {α β : Type} (m : Run α) (f : α → Run β) : Run β := fun s =>
  match m s with
  | (.ok a, s1) => f a s1
  | (.error e, s1) => (.error e, s1)

/-- A function that returns without effect. -/
def Run.pure {α : Type} (a : α) : Run α := fun s => (.ok a, s)

instance : Monad Run where
  pure := Run.pure
  bind := Run.bind

/-- The statement `return errors.New(e)`. -/
def fail {α : Type} (e : String) : Run α := fun s => (.error e, s)

/-- The idiom `if err != nil { return fmt.Errorf(ctx + "%s", err) }` around a call. -/
def errorf {α : Type} (ctx : String) (m : Run α) : Run α := fun s =>
  match m s with
  | (.ok a, s1) => (.ok a, s1)
  | (.error e, s1) => (.error (ctx ++ e), s1)

/-- Records a call. -/
def State.log (s : State) (c : Call) : State := { s with calls := s.calls ++ [c] }

/-- A call on a collaborator whose outcome does not depend on the state. -/
def call {α : Type} (c : Call) (r : Except String α) : Run α := fun s => (r, s.log c)

/-- The outcome of a call that returns only an error. -/
def errOf : Option String → Except String Unit
  | none => .ok ()
  | some e => .error e

/-! ## Standard library: `strings`, `path/filepath`, `os`, `io`, `fmt` -/

/-- The function `strings.Join`. -/
def strings.Join : List String → String → String
  | [], _ => ""
  | [a], _ => a
  | a :: b :: rest, sep => a ++ sep ++ strings.Join (b :: rest) sep

/-- The function `strings.TrimSuffix`. -/
def strings.TrimSuffix (s suffix : String) : String :=
  if suffix.data.isSuffixOf s.data then ⟨s.data.take (s.data.length - suffix.data.length)⟩ else s

/-- The loop of `filepath.Ext`, on the reversed path: walks back from the last byte until a
separator (no extension) or a dot (the extension starts there). -/
def filepath.extLoop : List Char → List Char → List Char
  | [], _ => []
  | c :: rest, acc =>
    if c = '/' then [] else if c = '.' then '.' :: acc else filepath.extLoop rest (c :: acc)

/-- The function `filepath.Ext`. -/
def filepath.Ext (path : String) : String := ⟨filepath.extLoop path.data.reverse []⟩

/-- The function `filepath.Base` (slash-separated paths, no volume name). -/
def filepath.Base (path : String) : String :=
  if path = "" then "." else
    let stripped := path.data.reverse.dropWhile (fun c => c = '/')
    let last := (stripped.takeWhile (fun c => c ≠ '/')).reverse
    if last = [] then "/" else ⟨last⟩

/-- The function `os.ReadFile`. -/
def os.ReadFile (env : Env) (path : String) : Run String :=
  call (.ReadFile path) (env.ReadFile path)

/-- The function `os.MkdirAll`. -/
def os.MkdirAll (env : Env) (path : String) : Run Unit :=
  call (.MkdirAll path) (errOf (env.MkdirAll path))

/-- The function `os.Create`: on success the file exists and is empty. -/
def os.Create (env : Env) (path : String) : Run Unit := fun s =>
  match env.Create path with
  | some e => (.error e, s.log (.Create path))
  | none => (.ok (), { s.log (.Create path) with files := Function.update s.files path (some "") })

/-- The method `Write` of the file at `output`: the bytes taken are appended. -/
def Write (env : Env) (output : String) (p : String) : Run Unit := fun s =>
  let cur := (s.files output).getD ""
  match env.writeFault output cur p with
  | none =>
    (.ok (), { s.log (.Write output p) with files := Function.update s.files output (some (cur ++ p)) })
  | some (n, e) =>
    (.error e, { s.log (.Write output p) with
      files := Function.update s.files output (some (cur ++ ⟨p.data.take n⟩)) })

/-- The function `io.Copy` from a blob reader: the bytes the reader delivers are written (no
write happens when there are none), then the reader's error, if any, is returned. -/
def io.Copy (env : Env) (output : String) (reader : Reader) : Run Unit := do
  if reader.data ≠ "" then
    Write env output reader.data
  match reader.err with
  | some e => fail e
  | none => pure ()

/-- The function `fmt.Printf`, given the text its format and arguments make. -/
def fmt.Printf (text : String) : Run Unit := fun s =>
  (.ok (), { s with stdout := s.stdout ++ text })

/-- The function `fmt.Println` of one string. -/
def fmt.Println (str : String) : Run Unit := fun s =>
  (.ok (), { s with stdout := s.stdout ++ (str ++ "\n") })

/-- The method `(*Manifest).ReadFile` of `src/manifest.go`. -/
def Manifest.ReadFile (env : Env) (file : String) : Run Manifest := do
  let contents ← errorf "reading manifest file: " (os.ReadFile env file)
  errorf "unmarshaling manifest: " (fun s => (env.Unmarshal contents, s))

/-- The cancellation signal as the loop of `Transpile` observes it: `ctx i` is `none` when
`ctx.Done()` is not yet closed at the check before the input of index `i` (from 0), and
`some reason` when it is closed and `ctx.Err()` is `reason`. -/
abbrev Ctx : Type := Nat → Option String

/-! ## The newer engine: `src/transpiler/transpiler.go` -/

namespace transpiler

/-- The struct `Options` of `src/transpiler/transpiler.go`. -/
structure Options where
  GitRoot : String
  Inputs : List String
  CombinedOutput : String
  OutputRoot : String
  Strict : Bool
  Annotate : Bool
  Verbose : Bool

/-- Modelled from the spec: the method `ReadFile` of the type `Manifest` of package
`transpiler`, whose declaration is not among the sources (`transpiler.go` only uses it).  The
spec (4.2) has the loader read the manifest bytes and decode the five fields, and fail when
the read fails or the bytes cannot be decoded.  The fields `transpiler.go` uses are those of
the `Manifest` of `src/manifest.go`, and the method is taken to be the one of that file. -/
def Manifest.ReadFile (env : Env) (file : String) : Run Manifest :=
  JDSL.Manifest.ReadFile env file

/-- The method `(*Options).Log`. -/
def Options.Log (o : Options) (str : String) : Run Unit :=
  if o.Verbose then fmt.Println str else pure ()

/-- The body of the loop `for _, function := range manifest.Functions` of `transpileFile`. -/
def transpileFile.body (env : Env) (repo : Repository) (opts : Options) (jsPath : String)
    (output : String) (function : String) : Run Unit := do
  opts.Log ("Reading " ++ jsPath ++ " from commit " ++ function ++ "...")
  let commit ← errorf ("getting commit " ++ function ++ ": ")
    (call (.CommitObject (env.NewHash function)) (repo.CommitObject (env.NewHash function)))
  let commitFile ← errorf ("getting file " ++ jsPath ++ ": ")
    (call (.File (env.NewHash function) jsPath) (commit.File jsPath))
  let reader ← errorf ("getting reader for " ++ jsPath ++ ": ")
    (call (.Reader (env.NewHash function) jsPath) commitFile.Reader)
  errorf "copying file contents: " (io.Copy env output reader)

/-- The loop `for _, function := range manifest.Functions` of `transpileFile`. -/
def transpileFile.loop (env : Env) (repo : Repository) (opts : Options) (jsPath : String)
    (output : String) : List String → Run Unit
  | [] => pure ()
  | function :: rest => do
    transpileFile.body env repo opts jsPath output function
    transpileFile.loop env repo opts jsPath output rest

/-- The method `transpileFile`; its `ctx` argument is never read and is left out. -/
def transpileFile (env : Env) (repo : Repository) (opts : Options) (manifest : Manifest)
    (jsPath : String) (output : String) : Run Unit := do
  if opts.Annotate then
    let headerAnnotations := [
      "// JDSL 1.0",
      "// File: " ++ manifest.File,
      "// Class: " ++ manifest.Class,
      "// Author: " ++ manifest.Author,
      "// Purpose: " ++ manifest.Purpose,
      ""]
    errorf "writing annotation: " (Write env output (strings.Join headerAnnotations "\n"))
  errorf "writing class definition: " (Write env output ("function " ++ manifest.Class ++ "() {}\n"))
  transpileFile.loop env repo opts jsPath output manifest.Functions

/-- The method `processInput`; `combinedOutput` is `none` for the nil writer.  Its `ctx`
argument is only handed on to `transpileFile` and is left out. -/
def processInput (env : Env) (repo : Repository) (opts : Options) (input : String)
    (combinedOutput : Option String) : Run Unit := do
  let input := strings.TrimSuffix input (filepath.Ext input)
  let manifestPath := input ++ ".json"
  let jsPath := input ++ ".js"
  let manifest ← errorf "reading manifest: " (Manifest.ReadFile env manifestPath)
  if opts.Strict && manifest.File != filepath.Base manifestPath then
    fail ("file name in manifest (" ++ manifest.File ++ ") does not match: "
      ++ filepath.Base manifestPath)
  else
    match combinedOutput with
    | some output => transpileFile env repo opts manifest jsPath output
    | none => do
      let outputPath := env.Join opts.OutputRoot jsPath
      errorf "creating output directory: " (os.MkdirAll env (env.Dir outputPath))
      errorf "creating output file: " (os.Create env outputPath)
      transpileFile env repo opts manifest jsPath outputPath

/-- The body of the loop `for _, input := range opts.Inputs` of `Transpile`, for the input of
index `i`: the check of the cancellation signal, then the unit. -/
def Transpile.body (env : Env) (ctx : Ctx) (repo : Repository) (opts : Options)
    (combinedOutput : Option String) (i : Nat) (input : String) : Run Unit :=
  match ctx i with
  | some reason => fail reason
  | none => errorf "processing input: " (processInput env repo opts input combinedOutput)

/-- The loop `for _, input := range opts.Inputs` of `Transpile`; `i` is the index of the next
input. -/
def Transpile.loop (env : Env) (ctx : Ctx) (repo : Repository) (opts : Options)
    (combinedOutput : Option String) : Nat → List String → Run Unit
  | _, [] => pure ()
  | i, input :: rest => do
    Transpile.body env ctx repo opts combinedOutput i input
    Transpile.loop env ctx repo opts combinedOutput (i + 1) rest

/-- The part of `Transpile` that sets up the output: the shared file in combined mode, the
output directory otherwise. -/
def Transpile.open (env : Env) (opts : Options) : Run (Option String) :=
  if opts.CombinedOutput.length > 0 then do
    errorf "creating output directory: " (os.MkdirAll env (env.Dir opts.CombinedOutput))
    errorf "creating combined output file: " (os.Create env opts.CombinedOutput)
    pure (some opts.CombinedOutput)
  else do
    errorf "creating output directory: " (os.MkdirAll env opts.OutputRoot)
    pure none

/-- The method `Transpile`. -/
def Transpile (env : Env) (ctx : Ctx) (opts : Options) : Run Unit := do
  let repo ← errorf "opening repo: "
    (call (.PlainOpen opts.GitRoot) (env.PlainOpen opts.GitRoot))
  let combinedOutput ← Transpile.open env opts
  Transpile.loop env ctx repo opts combinedOutput 0 opts.Inputs

end transpiler

/-! ## The older engine: `src/transpiler.go` -/

namespace jdsl

/-- The struct `Options` of `src/transpiler.go`. -/
structure Options where
  GitRoot : String
  Inputs : List String
  OutputRoot : String
  Strict : Bool
  Annotate : Bool

/-- The body of the loop `for _, function := range manifest.Functions` of `processInput`. -/
def processInput.body (env : Env) (repo : Repository) (jsPath : String) (output : String)
    (function : String) : Run Unit := do
  fmt.Printf ("Reading " ++ jsPath ++ " from commit " ++ function ++ "...\n")
  let commit ← errorf ("getting commit " ++ function ++ ": ")
    (call (.CommitObject (env.NewHash function)) (repo.CommitObject (env.NewHash function)))
  let commitFile ← errorf ("getting file " ++ jsPath ++ ": ")
    (call (.File (env.NewHash function) jsPath) (commit.File jsPath))
  let reader ← errorf ("getting reader for " ++ jsPath ++ ": ")
    (call (.Reader (env.NewHash function) jsPath) commitFile.Reader)
  errorf "copying file contents: " (io.Copy env output reader)

/-- The loop `for _, function := range manifest.Functions` of `processInput`. -/
def processInput.loop (env : Env) (repo : Repository) (jsPath : String) (output : String) :
    List String → Run Unit
  | [] => pure ()
  | function :: rest => do
    processInput.body env repo jsPath output function
    processInput.loop env repo jsPath output rest

/-- The method `processInput`; its `ctx` argument is never read and is left out. -/
def processInput (env : Env) (repo : Repository) (opts : Options) (input : String) :
    Run Unit := do
  let input := strings.TrimSuffix input (filepath.Ext input)
  let manifestPath := input ++ ".json"
  let jsPath := input ++ ".js"
  let manifest ← errorf "reading manifest: " (Manifest.ReadFile env manifestPath)
  if opts.Strict && manifest.File != filepath.Base manifestPath then
    fail ("file name in manifest (" ++ manifest.File ++ ") does not match: "
      ++ filepath.Base manifestPath)
  else do
    let outputPath := env.Join opts.OutputRoot jsPath
    errorf "creating output directory: " (os.MkdirAll env (env.Dir outputPath))
    errorf "creating output file: " (os.Create env outputPath)
    if opts.Annotate then
      let headerAnnotations := [
        "// JDSL 1.0",
        "// File: " ++ manifest.File,
        "// Class: " ++ manifest.Class,
        "// Author: " ++ manifest.Author,
        "// Purpose: " ++ manifest.Purpose,
        ""]
      errorf "writing annotation: " (Write env outputPath (strings.Join headerAnnotations "\n"))
    errorf "writing class definition: "
      (Write env outputPath ("function " ++ manifest.Class ++ "() {}\n"))
    processInput.loop env repo jsPath outputPath manifest.Functions

/-- The loop `for _, input := range opts.Inputs` of `Transpile`. -/
def Transpile.loop (env : Env) (repo : Repository) (opts : Options) : List String → Run Unit
  | [] => pure ()
  | input :: rest => do
    errorf "processing input: " (processInput env repo opts input)
    Transpile.loop env repo opts rest

/-- The method `Transpile`; the context is accepted and never consulted. -/
def Transpile (env : Env) (_ctx : Ctx) (opts : Options) : Run Unit := do
  let repo ← errorf "opening repo: "
    (call (.PlainOpen opts.GitRoot) (env.PlainOpen opts.GitRoot))
  errorf "creating output directory: " (os.MkdirAll env opts.OutputRoot)
  Transpile.loop env repo opts opts.Inputs

end jdsl

/-! ## Vocabulary of the statements -/

/-- The manifest path `processInput` derives from an input: the input without its final
extension, plus `.json`. -/
def manifestPath (input : String) : String :=
  strings.TrimSuffix input (filepath.Ext input) ++ ".json"

/-- The companion file path `processInput` derives from an input: the input without its final
extension, plus `.js`. -/
def jsPath (input : String) : String :=
  strings.TrimSuffix input (filepath.Ext input) ++ ".js"

/-- The revision `function` resolves to `content` for the companion file `path`: the commit,
the file in it and its reader are all found, and the reader delivers `content` to the end. -/
def Resolves (env : Env) (repo : Repository) (path function content : String) : Prop :=
  ∃ commit commitFile, repo.CommitObject (env.NewHash function) = .ok commit ∧
    commit.File path = .ok commitFile ∧ commitFile.Reader = .ok ⟨content, none⟩

/-- The file at `output` takes every write in full. -/
def Reliable (env : Env) (output : String) : Prop :=
  ∀ cur p, env.writeFault output cur p = none

/-- The manifest file of an input is read and decoded as `m`. -/
def Loads (env : Env) (input : String) (m : Manifest) : Prop :=
  ∃ contents, env.ReadFile (manifestPath input) = .ok contents ∧ env.Unmarshal contents = .ok m

/-- An error message is a name-mismatch message when it starts the way the strict-mode check
words it. -/
def NameMismatch (e : String) : Prop :=
  "file name in manifest (".data <+: e.data

/-- The writer `Transpile` hands to `processInput`: the shared file when `CombinedOutput` is
not empty, the nil writer otherwise. -/
def transpiler.Options.writer (opts : transpiler.Options) : Option String :=
  if opts.CombinedOutput.length > 0 then some opts.CombinedOutput else none

/-- The same environment with a file system in which no write fails. -/
def Env.reliable (env : Env) : Env := { env with writeFault := fun _ _ _ => none }

/-- A unit's own output: the bytes `processInput` writes for that unit alone, into an empty
writer that takes every write. -/
def transpiler.ownOutput (env : Env) (repo : Repository) (opts : transpiler.Options)
    (input : String) : String :=
  ((transpiler.processInput env.reliable repo opts input (some "sink") State.init).2.files
    "sink").getD ""

/-- The options under which the newer engine is compared with the older one: per-unit output
(no combined file), the same other fields, and a chosen `Verbose`. -/
def jdsl.Options.toNew (o : jdsl.Options) (verbose : Bool) : transpiler.Options :=
  ⟨o.GitRoot, o.Inputs, "", o.OutputRoot, o.Strict, o.Annotate, verbose⟩

/-- The annotation block as the bytes it consists of: five comment lines, each ended by one
newline. -/
def annotationBlock (m : Manifest) : String :=
  "// JDSL 1.0\n" ++ ("// File: " ++ m.File ++ "\n") ++ ("// Class: " ++ m.Class ++ "\n")
    ++ ("// Author: " ++ m.Author ++ "\n") ++ ("// Purpose: " ++ m.Purpose ++ "\n")

/-- The stub declaration line. -/
def stubLine (m : Manifest) : String :=
  "function " ++ m.Class ++ "() {}\n"

/-- The bytes of a unit: the annotation block when asked for, the stub line, and the contents
of the revisions in order. -/
def unitBytes (annotate : Bool) (m : Manifest) (contents : List String) : String :=
  (if annotate then annotationBlock m else "") ++ stubLine m ++ String.join contents

/-- The revision `function` fails to resolve for the companion file `path`: the commit is
missing, or the file is missing at that commit, or its content cannot be opened. -/
def FailsToResolve (env : Env) (repo : Repository) (path function : String) : Prop :=
  (∃ cause, repo.CommitObject (env.NewHash function) = .error cause) ∨
  (∃ commit cause, repo.CommitObject (env.NewHash function) = .ok commit ∧
    commit.File path = .error cause) ∨
  (∃ commit commitFile cause, repo.CommitObject (env.NewHash function) = .ok commit ∧
    commit.File path = .ok commitFile ∧ commitFile.Reader = .error cause)

/-- The calls on the repository that resolve one revision, in the order they are made. -/
def lookupCalls (env : Env) (path function : String) : List Call :=
  [.CommitObject (env.NewHash function), .File (env.NewHash function) path,
    .Reader (env.NewHash function) path]

/-- The output of a unit can be written: the shared writer takes every write, or, in per-unit
mode, the directory and the file of the unit under `outputRoot` can be created and the file
takes every write. -/
def Writable (env : Env) (outputRoot input : String) : Option String → Prop
  | some output => Reliable env output
  | none =>
    env.MkdirAll (env.Dir (env.Join outputRoot (jsPath input))) = none ∧
    env.Create (env.Join outputRoot (jsPath input)) = none ∧
    Reliable env (env.Join outputRoot (jsPath input))

/-- Two states agree on the files and on the calls made; the standard output may differ. -/
def Agree (s t : State) : Prop := s.files = t.files ∧ s.calls = t.calls

/-- Two functions do the same but for what they print: from states that agree they return the
same result and reach states that agree. -/
def Sim {α : Type} (m n : Run α) : Prop :=
  ∀ s t, Agree s t → (m s).1 = (n t).1 ∧ Agree (m s).2 (n t).2

/-! ## An example world -/

/-- An example history: the commits `c1` and `c2`, each holding `foo.js`, `bar.js` and
`baz.js`; no other commit exists. -/
def exampleRepo : Repository where
  CommitObject := fun hash =>
    if hash = "c1" then .ok ⟨fun path =>
      if path = "foo.js" then .ok ⟨.ok ⟨"Foo.prototype.one = 1;\n", none⟩⟩
      else if path = "bar.js" then .ok ⟨.ok ⟨"Bar.prototype.one = 1;\n", none⟩⟩
      else if path = "baz.js" then .ok ⟨.ok ⟨"Baz.prototype.one = 1;\n", none⟩⟩
      else .error "file not found"⟩
    else if hash = "c2" then .ok ⟨fun path =>
      if path = "foo.js" then .ok ⟨.ok ⟨"Foo.prototype.two = 2;\n", none⟩⟩
      else if path = "bar.js" then .ok ⟨.ok ⟨"Bar.prototype.two = 2;\n", none⟩⟩
      else if path = "baz.js" then .ok ⟨.ok ⟨"Baz.prototype.two = 2;\n", none⟩⟩
      else .error "file not found"⟩
    else .error "object not found"

/-- The manifest of the unit `foo`: three revisions, one of them listed twice. -/
def fooManifest : Manifest := ⟨"foo.json", "Foo", "alice", "demo", ["c1", "c2", "c1"]⟩

/-- The manifest of the unit `bar`: its `File` field is not its file name. -/
def barManifest : Manifest := ⟨"other.json", "Bar", "bob", "demo", ["c2"]⟩

/-- The manifest of the unit `baz`: its second revision `c9` is not in the history. -/
def bazManifest : Manifest := ⟨"baz.json", "Baz", "carol", "demo", ["c1", "c9", "c2"]⟩

/-- The manifest of the unit `nil`: no revision. -/
def nilManifest : Manifest := ⟨"nil.json", "Nil", "dave", "demo", []⟩

/-- An example environment: four manifests, the example history, a file system on which
nothing fails. -/
def exampleEnv : Env where
  ReadFile := fun path =>
    if path = "foo.json" then .ok "foo" else if path = "bar.json" then .ok "bar"
    else if path = "baz.json" then .ok "baz" else if path = "nil.json" then .ok "nil"
    else .error "no such file or directory"
  Unmarshal := fun contents =>
    if contents = "foo" then .ok fooManifest else if contents = "bar" then .ok barManifest
    else if contents = "baz" then .ok bazManifest else if contents = "nil" then .ok nilManifest
    else .error "invalid character"
  PlainOpen := fun _ => .ok exampleRepo
  NewHash := fun s => s
  MkdirAll := fun _ => none
  Create := fun _ => none
  writeFault := fun _ _ _ => none
  Join := fun dir file => dir ++ "/" ++ file
  Dir := fun path => ⟨((path.data.reverse.dropWhile (fun c => c ≠ '/')).drop 1).reverse⟩

/-- Example options of the newer engine: per-unit output under `dist`, all flags off. -/
def plainOpts : transpiler.Options := ⟨".", [], "", "dist", false, false, false⟩

/-- Example options of the newer engine: per-unit output under `dist`, `Annotate` set. -/
def annotateOpts : transpiler.Options := ⟨".", [], "", "dist", false, true, false⟩

/-- A signal that is never raised. -/
def neverDone : Ctx := fun _ => none

/-- Example options of the newer engine: per-unit output under `dist`, `Strict` set. -/
def strictOpts : transpiler.Options := ⟨".", [], "", "dist", true, false, false⟩

/-- Example options of the older engine: output under `dist`, all flags off. -/
def oldPlainOpts : jdsl.Options := ⟨".", [], "dist", false, false⟩

/-- Example options of the older engine: output under `dist`, `Annotate` set. -/
def oldAnnotateOpts : jdsl.Options := ⟨".", [], "dist", false, true⟩

/-- Example options of the older engine: output under `dist`, `Strict` set. -/
def oldStrictOpts : jdsl.Options := ⟨".", [], "dist", true, false⟩

/-- A signal raised from the check of index `k` on, with the reason `context canceled`. -/
def raisedFrom (k : Nat) : Ctx := fun i => if k ≤ i then some "context canceled" else none

/-- Example options of the newer engine: the units `foo` and `bar` into the one file
`all.js`. -/
def combinedOpts : transpiler.Options := ⟨".", ["foo.js", "bar.js"], "all.js", "", false, false, false⟩

/-- Example options of the older engine: the unit `foo` under `dist`. -/
def oldFooOpts : jdsl.Options := ⟨".", ["foo.js"], "dist", false, false⟩

/-! ## Sequencing and the primitives -/

theorem bind_apply {α β : Type} (m : Run α) (f : α → Run β) (s : State) :
    (m >>= f) s = match m s with
      | (.ok a, s1) => f a s1
      | (.error e, s1) => (.error e, s1) := rfl

theorem bind_of_ok {α β : Type} {m : Run α} {f : α → Run β} {s : State} {a : α}
    (h : (m s).1 = .ok a) : (m >>= f) s = f a (m s).2 := by
  rw [bind_apply]
  rcases hm : m s with ⟨r, s1⟩
  rw [hm] at h
  simp only at h
  subst h
  rfl

theorem bind_of_error {α β : Type} {m : Run α} {f : α → Run β} {s : State} {e : String}
    (h : (m s).1 = .error e) : (m >>= f) s = (.error e, (m s).2) := by
  rw [bind_apply]
  rcases hm : m s with ⟨r, s1⟩
  rw [hm] at h
  simp only at h
  subst h
  rfl

theorem run_bind_assoc {α β γ : Type} (m : Run α) (f : α → Run β) (g : β → Run γ) :
    (m >>= f) >>= g = m >>= fun a => f a >>= g := by
  funext s
  simp only [bind_apply]
  rcases m s with ⟨r, s1⟩
  cases r <;> rfl

theorem run_pure_bind {α β : Type} (a : α) (f : α → Run β) : (pure a : Run α) >>= f = f a := rfl

theorem errorf_of_ok {α : Type} {ctx : String} {m : Run α} {s : State} {a : α}
    (h : (m s).1 = .ok a) : errorf ctx m s = (.ok a, (m s).2) := by
  unfold errorf
  rcases hm : m s with ⟨r, s1⟩
  rw [hm] at h
  simp only at h
  subst h
  rfl

theorem errorf_of_error {α : Type} {ctx : String} {m : Run α} {s : State} {e : String}
    (h : (m s).1 = .error e) : errorf ctx m s = (.error (ctx ++ e), (m s).2) := by
  unfold errorf
  rcases hm : m s with ⟨r, s1⟩
  rw [hm] at h
  simp only at h
  subst h
  rfl

theorem errorf_ok_iff {α : Type} (ctx : String) (m : Run α) (s : State) (a : α) :
    (errorf ctx m s).1 = .ok a ↔ (m s).1 = .ok a := by
  unfold errorf
  rcases m s with ⟨r, s1⟩
  cases r <;> simp

theorem errorf_error_elim {α : Type} {ctx : String} {m : Run α} {s : State} {e : String}
    (h : (errorf ctx m s).1 = .error e) : ∃ e0, (m s).1 = .error e0 ∧ e = ctx ++ e0 := by
  unfold errorf at h
  rcases hm : m s with ⟨r, s1⟩
  rw [hm] at h
  cases r with
  | error e0 => exact ⟨e0, rfl, by simpa using h.symm⟩
  | ok a => simp at h

theorem result_cases {α : Type} (r : Except String α) :
    (∃ a, r = .ok a) ∨ (∃ e, r = .error e) := by
  cases r with
  | ok a => exact Or.inl ⟨a, rfl⟩
  | error e => exact Or.inr ⟨e, rfl⟩

theorem join_cons (a : String) (l : List String) : String.join (a :: l) = a ++ String.join l := by
  apply String.ext
  simp [String.join_eq]

theorem join_nil : String.join [] = "" := rfl

/-! ## The loop over the revisions of a unit -/

namespace transpiler

theorem Log_fst (opts : Options) (str : String) (s : State) : (opts.Log str s).1 = .ok () := by
  unfold Options.Log
  split <;> rfl

theorem Log_files (opts : Options) (str : String) (s : State) :
    (opts.Log str s).2.files = s.files := by
  unfold Options.Log
  split <;> rfl

theorem Log_calls (opts : Options) (str : String) (s : State) :
    (opts.Log str s).2.calls = s.calls := by
  unfold Options.Log
  split <;> rfl

theorem body_commit_missing (env : Env) (repo : Repository) (opts : Options)
    (path output function cause : String) (s : State)
    (h : repo.CommitObject (env.NewHash function) = .error cause) :
    transpileFile.body env repo opts path output function s =
      (.error ("getting commit " ++ function ++ ": " ++ cause),
       (opts.Log ("Reading " ++ path ++ " from commit " ++ function ++ "...") s).2.log
         (.CommitObject (env.NewHash function))) := by
  cases hv : opts.Verbose <;>
  simp [transpileFile.body, bind, Run.bind, errorf, call, h, Options.Log, fmt.Println, pure, Run.pure, hv]

theorem body_file_missing (env : Env) (repo : Repository) (opts : Options)
    (path output function cause : String) (s : State) (commit : Commit)
    (h1 : repo.CommitObject (env.NewHash function) = .ok commit)
    (h2 : commit.File path = .error cause) :
    transpileFile.body env repo opts path output function s =
      (.error ("getting file " ++ path ++ ": " ++ cause),
       (((opts.Log ("Reading " ++ path ++ " from commit " ++ function ++ "...") s).2.log
         (.CommitObject (env.NewHash function))).log (.File (env.NewHash function) path))) := by
  cases hv : opts.Verbose <;>
  simp [transpileFile.body, bind, Run.bind, errorf, call, h1, h2, Options.Log, fmt.Println, pure, Run.pure, hv]

theorem body_reader_missing (env : Env) (repo : Repository) (opts : Options)
    (path output function cause : String) (s : State) (commit : Commit) (commitFile : BlobFile)
    (h1 : repo.CommitObject (env.NewHash function) = .ok commit)
    (h2 : commit.File path = .ok commitFile)
    (h3 : commitFile.Reader = .error cause) :
    transpileFile.body env repo opts path output function s =
      (.error ("getting reader for " ++ path ++ ": " ++ cause),
       ((((opts.Log ("Reading " ++ path ++ " from commit " ++ function ++ "...") s).2.log
         (.CommitObject (env.NewHash function))).log (.File (env.NewHash function) path)).log
         (.Reader (env.NewHash function) path))) := by
  cases hv : opts.Verbose <;>
  simp [transpileFile.body, bind, Run.bind, errorf, call, h1, h2, h3, Options.Log, fmt.Println, pure, Run.pure, hv]

theorem body_complete (env : Env) (repo : Repository) (opts : Options)
    (path output function content cur : String) (s : State)
    (hr : Resolves env repo path function content) (hw : Reliable env output)
    (hs : s.files output = some cur) :
    (transpileFile.body env repo opts path output function s).1 = .ok () ∧
    (transpileFile.body env repo opts path output function s).2.files =
      Function.update s.files output (some (cur ++ content)) := by
  obtain ⟨c, b, h1, h2, h3⟩ := hr
  unfold Reliable at hw
  cases hv : opts.Verbose <;> by_cases hd : content = "" <;>
  simp [transpileFile.body, bind, Run.bind, errorf, call, h1, h2, h3, io.Copy, Write, hw,
    Options.Log, fmt.Println, pure, Run.pure, fail, hv, hd, State.log, hs]

theorem body_sound (env : Env) (repo : Repository) (opts : Options)
    (path output function cur : String) (s : State)
    (hs : s.files output = some cur)
    (hok : (transpileFile.body env repo opts path output function s).1 = .ok ()) :
    ∃ content, Resolves env repo path function content ∧
    (transpileFile.body env repo opts path output function s).2.files =
      Function.update s.files output (some (cur ++ content)) := by
  cases h1 : repo.CommitObject (env.NewHash function) with
  | error e => rw [body_commit_missing _ _ _ _ _ _ _ _ h1] at hok; simp at hok
  | ok c =>
    cases h2 : c.File path with
    | error e => rw [body_file_missing _ _ _ _ _ _ _ _ _ h1 h2] at hok; simp at hok
    | ok b =>
      cases h3 : b.Reader with
      | error e => rw [body_reader_missing _ _ _ _ _ _ _ _ _ _ h1 h2 h3] at hok; simp at hok
      | ok r =>
        obtain ⟨d, err⟩ := r
        refine ⟨d, ?_⟩
        revert hok
        cases err <;> cases hv : opts.Verbose <;> by_cases hd : d = "" <;>
        cases hw : env.writeFault output cur d <;>
        simp [Resolves, transpileFile.body, bind, Run.bind, errorf, call, h1, h2, h3, io.Copy, Write, hw,
          Options.Log, fmt.Println, pure, Run.pure, fail, hv, hd, State.log, hs]

theorem body_files_ext (env : Env) (repo : Repository) (opts : Options)
    (path output function cur : String) (s : State)
    (hs : s.files output = some cur) :
    ∃ rest, (transpileFile.body env repo opts path output function s).2.files output = some (cur ++ rest) := by
  cases h1 : repo.CommitObject (env.NewHash function) with
  | error e => rw [body_commit_missing _ _ _ _ _ _ _ _ h1]; exact ⟨"", by simp [State.log, Log_files, hs]⟩
  | ok c =>
    cases h2 : c.File path with
    | error e => rw [body_file_missing _ _ _ _ _ _ _ _ _ h1 h2]; exact ⟨"", by simp [State.log, Log_files, hs]⟩
    | ok b =>
      cases h3 : b.Reader with
      | error e => rw [body_reader_missing _ _ _ _ _ _ _ _ _ _ h1 h2 h3]; exact ⟨"", by simp [State.log, Log_files, hs]⟩
      | ok r =>
        obtain ⟨d, err⟩ := r
        cases err <;> cases hv : opts.Verbose <;> by_cases hd : d = "" <;>
        cases hw : env.writeFault output cur d <;>
        simp [transpileFile.body, bind, Run.bind, errorf, call, h1, h2, h3, io.Copy, Write, hw,
          Options.Log, fmt.Println, pure, Run.pure, fail, hv, hd, State.log, hs]
        all_goals exact ⟨"", by simp⟩

theorem loop_complete (env : Env) (repo : Repository) (opts : Options) (path output : String)
    (hw : Reliable env output) (fs : List String) (contents : List String)
    (hr : List.Forall₂ (Resolves env repo path) fs contents) :
    ∀ (s : State) (cur : String), s.files output = some cur →
      (transpileFile.loop env repo opts path output fs s).1 = .ok () ∧
      (transpileFile.loop env repo opts path output fs s).2.files =
        Function.update s.files output (some (cur ++ String.join contents)) := by
  induction hr with
  | nil =>
    intro s cur hs
    refine ⟨rfl, ?_⟩
    show s.files = _
    simp [join_nil, ← hs]
  | @cons f d fs ds hfd _ ih =>
    intro s cur hs
    obtain ⟨hb1, hb2⟩ := body_complete env repo opts path output f d cur s hfd hw hs
    have hstep : transpileFile.loop env repo opts path output (f :: fs) s =
        transpileFile.loop env repo opts path output fs
          (transpileFile.body env repo opts path output f s).2 := bind_of_ok hb1
    have hs1 : (transpileFile.body env repo opts path output f s).2.files output =
        some (cur ++ d) := by rw [hb2]; simp
    obtain ⟨i1, i2⟩ := ih _ _ hs1
    rw [hstep]
    refine ⟨i1, ?_⟩
    rw [i2, hb2, join_cons]
    simp [String.append_assoc]

theorem loop_sound (env : Env) (repo : Repository) (opts : Options) (path output : String)
    (fs : List String) :
    ∀ (s : State) (cur : String), s.files output = some cur →
      (transpileFile.loop env repo opts path output fs s).1 = .ok () →
      ∃ contents, List.Forall₂ (Resolves env repo path) fs contents ∧
        (transpileFile.loop env repo opts path output fs s).2.files =
          Function.update s.files output (some (cur ++ String.join contents)) := by
  induction fs with
  | nil =>
    intro s cur hs _
    refine ⟨[], List.Forall₂.nil, ?_⟩
    show s.files = _
    simp [join_nil, ← hs]
  | cons f fs ih =>
    intro s cur hs hok
    rcases result_cases (transpileFile.body env repo opts path output f s).1 with ⟨u, hb⟩ | ⟨e, hb⟩
    · have hstep : transpileFile.loop env repo opts path output (f :: fs) s =
          transpileFile.loop env repo opts path output fs
            (transpileFile.body env repo opts path output f s).2 := bind_of_ok hb
      obtain ⟨d, hd, hb2⟩ := body_sound env repo opts path output f cur s hs hb
      have hs1 : (transpileFile.body env repo opts path output f s).2.files output =
          some (cur ++ d) := by rw [hb2]; simp
      rw [hstep] at hok ⊢
      obtain ⟨ds, hds, i2⟩ := ih _ _ hs1 hok
      refine ⟨d :: ds, List.Forall₂.cons hd hds, ?_⟩
      rw [i2, hb2, join_cons]
      simp [String.append_assoc]
    · have hstep : transpileFile.loop env repo opts path output (f :: fs) s =
          (.error e, (transpileFile.body env repo opts path output f s).2) := bind_of_error hb
      rw [hstep] at hok
      simp at hok

theorem loop_files_ext (env : Env) (repo : Repository) (opts : Options) (path output : String)
    (fs : List String) :
    ∀ (s : State) (cur : String), s.files output = some cur →
      ∃ rest, (transpileFile.loop env repo opts path output fs s).2.files output =
        some (cur ++ rest) := by
  induction fs with
  | nil =>
    intro s cur hs
    exact ⟨"", by show s.files output = _; simp [hs]⟩
  | cons f fs ih =>
    intro s cur hs
    obtain ⟨r1, h1⟩ := body_files_ext env repo opts path output f cur s hs
    rcases result_cases (transpileFile.body env repo opts path output f s).1 with ⟨u, hb⟩ | ⟨e, hb⟩
    · have hstep : transpileFile.loop env repo opts path output (f :: fs) s =
          transpileFile.loop env repo opts path output fs
            (transpileFile.body env repo opts path output f s).2 := bind_of_ok hb
      obtain ⟨r2, h2⟩ := ih _ _ h1
      exact ⟨r1 ++ r2, by rw [hstep, h2, String.append_assoc]⟩
    · have hstep : transpileFile.loop env repo opts path output (f :: fs) s =
          (.error e, (transpileFile.body env repo opts path output f s).2) := bind_of_error hb
      exact ⟨r1, by rw [hstep]; exact h1⟩

theorem loop_append_ok (env : Env) (repo : Repository) (opts : Options) (path output : String)
    (pre post : List String) :
    ∀ (s : State), (transpileFile.loop env repo opts path output pre s).1 = .ok () →
      transpileFile.loop env repo opts path output (pre ++ post) s =
        transpileFile.loop env repo opts path output post
          (transpileFile.loop env repo opts path output pre s).2 := by
  induction pre with
  | nil => intro s _; rfl
  | cons f fs ih =>
    intro s hok
    rcases result_cases (transpileFile.body env repo opts path output f s).1 with ⟨u, hb⟩ | ⟨e, hb⟩
    · have hstep : ∀ l, transpileFile.loop env repo opts path output (f :: l) s =
          transpileFile.loop env repo opts path output l
            (transpileFile.body env repo opts path output f s).2 := fun l => bind_of_ok hb
      rw [List.cons_append, hstep, hstep]
      rw [hstep] at hok
      exact ih _ hok
    · have hstep : transpileFile.loop env repo opts path output (f :: fs) s =
          (.error e, (transpileFile.body env repo opts path output f s).2) := bind_of_error hb
      rw [hstep] at hok
      simp at hok

end transpiler

/-! ## One unit: `transpileFile` -/

namespace transpiler

theorem header_eq (m : Manifest) :
    strings.Join ["// JDSL 1.0", "// File: " ++ m.File, "// Class: " ++ m.Class,
      "// Author: " ++ m.Author, "// Purpose: " ++ m.Purpose, ""] "\n" = annotationBlock m := by
  simp [strings.Join, annotationBlock, String.append_assoc]

theorem transpileFile_complete (env : Env) (repo : Repository) (opts : Options)
    (m : Manifest) (path output : String) (contents : List String) (s : State)
    (hw : Reliable env output)
    (hr : List.Forall₂ (Resolves env repo path) m.Functions contents) :
    (transpileFile env repo opts m path output s).1 = .ok () ∧
    (transpileFile env repo opts m path output s).2.files =
      Function.update s.files output
        (some ((s.files output).getD "" ++ unitBytes opts.Annotate m contents)) := by
  have hw0 := hw
  unfold Reliable at hw0
  cases ha : opts.Annotate
  · have h0 : transpileFile env repo opts m path output s =
        transpileFile.loop env repo opts path output m.Functions
          (Write env output (stubLine m) s).2 := by
      simp [transpileFile, ha, bind, Run.bind, errorf, Write, hw0, pure, Run.pure, stubLine]
    have hs1 : (Write env output (stubLine m) s).2.files output =
        some ((s.files output).getD "" ++ stubLine m) := by
      simp [Write, hw0]
    obtain ⟨l1, l2⟩ := loop_complete env repo opts path output hw m.Functions contents hr _ _ hs1
    rw [h0]
    refine ⟨l1, ?_⟩
    rw [l2]
    simp [Write, hw0, unitBytes, String.append_assoc]
  · have h0 : transpileFile env repo opts m path output s =
        transpileFile.loop env repo opts path output m.Functions
          (Write env output (stubLine m) (Write env output (annotationBlock m) s).2).2 := by
      simp [transpileFile, ha, bind, Run.bind, errorf, Write, hw0, pure, Run.pure, stubLine,
        header_eq]
    have hs1 : (Write env output (stubLine m) (Write env output (annotationBlock m) s).2).2.files
        output = some ((s.files output).getD "" ++ annotationBlock m ++ stubLine m) := by
      simp [Write, hw0]
    obtain ⟨l1, l2⟩ := loop_complete env repo opts path output hw m.Functions contents hr _ _ hs1
    rw [h0]
    refine ⟨l1, ?_⟩
    rw [l2]
    simp [Write, hw0, unitBytes, String.append_assoc]

theorem transpileFile_eq_head (env : Env) (repo : Repository) (opts : Options)
    (m : Manifest) (path output : String) :
    transpileFile env repo opts m path output =
      (transpileFile env repo opts { m with Functions := [] } path output >>=
        fun _ => transpileFile.loop env repo opts path output m.Functions) := by
  cases ha : opts.Annotate <;>
  simp [transpileFile, transpileFile.loop, run_bind_assoc, run_pure_bind, ha]

theorem head_sound (env : Env) (repo : Repository) (opts : Options)
    (m : Manifest) (path output : String) (s : State)
    (hok : (transpileFile env repo opts { m with Functions := [] } path output s).1 = .ok ()) :
    (transpileFile env repo opts { m with Functions := [] } path output s).2.files output =
      some ((s.files output).getD "" ++ unitBytes opts.Annotate m []) := by
  revert hok
  cases ha : opts.Annotate
  · cases h1 : env.writeFault output ((s.files output).getD "") ("function " ++ m.Class ++ "() {}\n") <;>
    simp [transpileFile, ha, bind, Run.bind, errorf, Write, pure, Run.pure, stubLine, unitBytes,
      transpileFile.loop, h1, join_nil]
  · cases h1 : env.writeFault output ((s.files output).getD "") (annotationBlock m) <;>
    cases h2 : env.writeFault output ((s.files output).getD "" ++ annotationBlock m)
      ("function " ++ m.Class ++ "() {}\n") <;>
    simp [transpileFile, ha, bind, Run.bind, errorf, Write, pure, Run.pure, stubLine, unitBytes,
      transpileFile.loop, h1, h2, join_nil, header_eq]
    simp [String.append_assoc]

theorem transpileFile_sound (env : Env) (repo : Repository) (opts : Options)
    (m : Manifest) (path output : String) (s : State)
    (hok : (transpileFile env repo opts m path output s).1 = .ok ()) :
    ∃ contents, List.Forall₂ (Resolves env repo path) m.Functions contents ∧
      (transpileFile env repo opts m path output s).2.files output =
        some ((s.files output).getD "" ++ unitBytes opts.Annotate m contents) := by
  rw [transpileFile_eq_head] at hok ⊢
  rcases result_cases (transpileFile env repo opts { m with Functions := [] } path output s).1
    with ⟨u, hh⟩ | ⟨e, hh⟩
  · rw [bind_of_ok hh] at hok ⊢
    have hs := head_sound env repo opts m path output s hh
    obtain ⟨contents, hc, hf⟩ := loop_sound env repo opts path output m.Functions _ _ hs hok
    refine ⟨contents, hc, ?_⟩
    rw [hf]
    simp [unitBytes, join_nil, String.append_assoc]
  · rw [bind_of_error hh] at hok
    simp at hok

theorem transpileFile_files_ext (env : Env) (repo : Repository) (opts : Options)
    (m : Manifest) (path output : String) (s : State) (hw : Reliable env output) :
    ∃ rest, (transpileFile env repo opts m path output s).2.files output =
      some ((s.files output).getD "" ++ (if opts.Annotate then annotationBlock m else "")
        ++ stubLine m ++ rest) := by
  obtain ⟨h1, _⟩ := transpileFile_complete env repo opts { m with Functions := [] } path output []
    s hw List.Forall₂.nil
  have hs := head_sound env repo opts m path output s h1
  rw [transpileFile_eq_head, bind_of_ok h1]
  obtain ⟨rest, hr⟩ := loop_files_ext env repo opts path output m.Functions _ _ hs
  refine ⟨rest, ?_⟩
  rw [hr]
  simp [unitBytes, join_nil, String.append_assoc]

theorem transpileFile_split (env : Env) (repo : Repository) (opts : Options)
    (m : Manifest) (path output : String) (pre post : List String) (s : State)
    (hpre : (transpileFile env repo opts { m with Functions := pre } path output s).1 = .ok ()) :
    transpileFile env repo opts { m with Functions := pre ++ post } path output s =
      transpileFile.loop env repo opts path output post
        (transpileFile env repo opts { m with Functions := pre } path output s).2 := by
  rw [transpileFile_eq_head] at hpre ⊢
  rw [transpileFile_eq_head env repo opts { m with Functions := pre }]
  rcases result_cases (transpileFile env repo opts { m with Functions := [] } path output s).1
    with ⟨u, hh⟩ | ⟨e, hh⟩
  · have e1 : ∀ l, (transpileFile env repo opts { m with Functions := [] } path output >>=
        fun _ => transpileFile.loop env repo opts path output l) s =
        transpileFile.loop env repo opts path output l
          (transpileFile env repo opts { m with Functions := [] } path output s).2 :=
      fun l => bind_of_ok hh
    rw [e1] at hpre
    rw [e1, e1]
    exact loop_append_ok env repo opts path output pre post _ hpre
  · have e2 : (transpileFile env repo opts { m with Functions := [] } path output >>=
        fun _ => transpileFile.loop env repo opts path output pre) s =
        (.error e, (transpileFile env repo opts { m with Functions := [] } path output s).2) :=
      bind_of_error hh
    rw [e2] at hpre
    simp at hpre

theorem body_fails (env : Env) (repo : Repository) (opts : Options)
    (path output function : String) (s : State)
    (h : FailsToResolve env repo path function) :
    (∃ e, (transpileFile.body env repo opts path output function s).1 = .error e) ∧
    (transpileFile.body env repo opts path output function s).2.files = s.files ∧
    ∃ extra, (transpileFile.body env repo opts path output function s).2.calls = s.calls ++ extra ∧
      extra <+: lookupCalls env path function := by
  rcases h with ⟨cause, h1⟩ | ⟨c, cause, h1, h2⟩ | ⟨c, b, cause, h1, h2, h3⟩
  · rw [body_commit_missing _ _ _ _ _ _ _ _ h1]
    refine ⟨⟨_, rfl⟩, by simp [State.log, Log_files], [.CommitObject (env.NewHash function)], ?_, ?_⟩
    · simp [State.log, Log_calls]
    · simp [lookupCalls]
  · rw [body_file_missing _ _ _ _ _ _ _ _ _ h1 h2]
    refine ⟨⟨_, rfl⟩, by simp [State.log, Log_files],
      [.CommitObject (env.NewHash function), .File (env.NewHash function) path], ?_, ?_⟩
    · simp [State.log, Log_calls]
    · simp [lookupCalls]
  · rw [body_reader_missing _ _ _ _ _ _ _ _ _ _ h1 h2 h3]
    refine ⟨⟨_, rfl⟩, by simp [State.log, Log_files], lookupCalls env path function, ?_, ?_⟩
    · simp [State.log, Log_calls, lookupCalls]
    · simp

/-- When the revisions before `rk` resolve and the writer is reliable, the unit reaches `rk`
in the state the run on those revisions alone leaves, and does there what the body does. -/
theorem transpileFile_reaches (env : Env) (repo : Repository) (opts : Options)
    (m : Manifest) (path output : String) (pre post : List String) (rk : String)
    (contents : List String) (s : State)
    (hfun : m.Functions = pre ++ rk :: post) (hw : Reliable env output)
    (hpre : List.Forall₂ (Resolves env repo path) pre contents) :
    (transpileFile env repo opts { m with Functions := pre } path output s).2.files output =
      some ((s.files output).getD "" ++ unitBytes opts.Annotate m contents) ∧
    ∀ e, (transpileFile.body env repo opts path output rk
        (transpileFile env repo opts { m with Functions := pre } path output s).2).1 = .error e →
      transpileFile env repo opts m path output s =
        (.error e, (transpileFile.body env repo opts path output rk
          (transpileFile env repo opts { m with Functions := pre } path output s).2).2) := by
  obtain ⟨h1, h2⟩ := transpileFile_complete env repo opts { m with Functions := pre } path output
    contents s hw hpre
  refine ⟨by rw [h2]; simp [unitBytes, annotationBlock, stubLine], ?_⟩
  intro e he
  have hm : m = { m with Functions := pre ++ rk :: post } := by
    cases m
    simp at hfun
    simp [hfun]
  rw [hm, transpileFile_split env repo opts m path output pre (rk :: post) s h1]
  exact bind_of_error he

end transpiler

/-! ## The claims about one unit -/

/-- C1. For every manifest whose listed revisions all resolve, `transpileFile` succeeds and
appends to the sink exactly the annotation block (when `Annotate` is set), the stub line
`function <Class>() {}` and the content of the companion file at each listed revision, in
manifest order and with nothing between the pieces; with no revision listed the bytes are the
optional annotation block and the stub line alone, and no other file is touched.  The bytes
depend on the manifest, the `Annotate` flag and the resolved contents only. -/
theorem C1_transpileFile_output (env : Env) (repo : Repository) (opts : transpiler.Options)
    (manifest : Manifest) (path output : String) (contents : List String) (s : State)
    (hw : Reliable env output)
    (hres : List.Forall₂ (Resolves env repo path) manifest.Functions contents) :
    (transpiler.transpileFile env repo opts manifest path output s).1 = .ok () ∧
    (transpiler.transpileFile env repo opts manifest path output s).2.files output =
      some ((s.files output).getD "" ++
        ((if opts.Annotate then annotationBlock manifest else "")
          ++ ("function " ++ manifest.Class ++ "() {}\n") ++ String.join contents)) ∧
    (manifest.Functions = [] →
      (transpiler.transpileFile env repo opts manifest path output s).2.files output =
        some ((s.files output).getD "" ++
          ((if opts.Annotate then annotationBlock manifest else "")
            ++ ("function " ++ manifest.Class ++ "() {}\n")))) ∧
    (∀ other, other ≠ output →
      (transpiler.transpileFile env repo opts manifest path output s).2.files other =
        s.files other) := by
  obtain ⟨h1, h2⟩ := transpiler.transpileFile_complete env repo opts manifest path output
    contents s hw hres
  have h3 : (transpiler.transpileFile env repo opts manifest path output s).2.files output =
      some ((s.files output).getD "" ++
        ((if opts.Annotate then annotationBlock manifest else "")
          ++ ("function " ++ manifest.Class ++ "() {}\n") ++ String.join contents)) := by
    rw [h2]
    simp [unitBytes, stubLine]
  refine ⟨h1, h3, ?_, fun other hne => by rw [h2, Function.update_noteq hne]⟩
  intro hnil
  rw [hnil] at hres
  cases hres
  rw [h3]
  simp [join_nil]

/-- C1, at the unit `foo` of the example world, whose three revisions (one listed twice)
resolve. -/
theorem C1_transpileFile_output_witness :
    Reliable exampleEnv "out" ∧
    List.Forall₂ (Resolves exampleEnv exampleRepo "foo.js") fooManifest.Functions
      ["Foo.prototype.one = 1;\n", "Foo.prototype.two = 2;\n", "Foo.prototype.one = 1;\n"] ∧
    (transpiler.transpileFile exampleEnv exampleRepo plainOpts fooManifest "foo.js" "out"
      State.init).2.files "out" =
      some ("function Foo() {}\nFoo.prototype.one = 1;\nFoo.prototype.two = 2;\n"
        ++ "Foo.prototype.one = 1;\n") :=
  have hw : Reliable exampleEnv "out" := fun _ _ => rfl
  have hres : List.Forall₂ (Resolves exampleEnv exampleRepo "foo.js") fooManifest.Functions
      ["Foo.prototype.one = 1;\n", "Foo.prototype.two = 2;\n", "Foo.prototype.one = 1;\n"] :=
    .cons ⟨_, _, rfl, rfl, rfl⟩ (.cons ⟨_, _, rfl, rfl, rfl⟩ (.cons ⟨_, _, rfl, rfl, rfl⟩ .nil))
  ⟨hw, hres, (C1_transpileFile_output exampleEnv exampleRepo plainOpts fooManifest "foo.js" "out"
    _ State.init hw hres).2.1⟩

/-- C2, as stated, fails: with `Annotate` set the unit `nil` of the example world is written
as five comment lines directly followed by the stub line; no empty line stands between the
`// Purpose:` line and the `function` line.  The older engine writes the same bytes. -/
theorem C2_blank_line_counterexample :
    (transpiler.transpileFile exampleEnv exampleRepo annotateOpts nilManifest "nil.js" "out"
      State.init).2.files "out" =
      some ("// JDSL 1.0\n// File: nil.json\n// Class: Nil\n// Author: dave\n// Purpose: demo\n"
        ++ "function Nil() {}\n") ∧
    (transpiler.transpileFile exampleEnv exampleRepo annotateOpts nilManifest "nil.js" "out"
      State.init).2.files "out" ≠
      some ("// JDSL 1.0\n// File: nil.json\n// Class: Nil\n// Author: dave\n// Purpose: demo\n"
        ++ "\n" ++ "function Nil() {}\n") ∧
    (jdsl.processInput exampleEnv exampleRepo oldAnnotateOpts "nil.js" State.init).2.files
      "dist/nil.js" =
      some ("// JDSL 1.0\n// File: nil.json\n// Class: Nil\n// Author: dave\n// Purpose: demo\n"
        ++ "function Nil() {}\n") := by
  refine ⟨rfl, ?_, rfl⟩
  decide

/-- C2, amended. When `Annotate` is set and the sink takes every write, the bytes written
before the stub declaration are the five comment lines `// JDSL 1.0`, `// File: <File>`,
`// Class: <Class>`, `// Author: <Author>`, `// Purpose: <Purpose>`, each ended by one newline,
and the line `function <Class>() {}` follows the `// Purpose:` line directly, whatever the
revisions do. -/
theorem C2_annotation_block (env : Env) (repo : Repository) (opts : transpiler.Options)
    (manifest : Manifest) (path output : String) (s : State)
    (hw : Reliable env output) (ha : opts.Annotate = true) :
    ∃ rest, (transpiler.transpileFile env repo opts manifest path output s).2.files output =
      some ((s.files output).getD "" ++
        ("// JDSL 1.0\n" ++ ("// File: " ++ manifest.File ++ "\n")
          ++ ("// Class: " ++ manifest.Class ++ "\n")
          ++ ("// Author: " ++ manifest.Author ++ "\n")
          ++ ("// Purpose: " ++ manifest.Purpose ++ "\n")
          ++ ("function " ++ manifest.Class ++ "() {}\n") ++ rest)) := by
  obtain ⟨rest, h⟩ := transpiler.transpileFile_files_ext env repo opts manifest path output s hw
  refine ⟨rest, ?_⟩
  rw [h]
  simp [ha, annotationBlock, stubLine, String.append_assoc]

/-- C2 amended, at the unit `foo` of the example world. -/
theorem C2_annotation_block_witness :
    Reliable exampleEnv "out" ∧ annotateOpts.Annotate = true ∧
    ∃ rest, (transpiler.transpileFile exampleEnv exampleRepo annotateOpts fooManifest "foo.js"
      "out" State.init).2.files "out" =
      some ((State.init.files "out").getD "" ++
        ("// JDSL 1.0\n" ++ ("// File: " ++ fooManifest.File ++ "\n")
          ++ ("// Class: " ++ fooManifest.Class ++ "\n")
          ++ ("// Author: " ++ fooManifest.Author ++ "\n")
          ++ ("// Purpose: " ++ fooManifest.Purpose ++ "\n")
          ++ ("function " ++ fooManifest.Class ++ "() {}\n") ++ rest)) :=
  ⟨fun _ _ => rfl, rfl,
    C2_annotation_block exampleEnv exampleRepo annotateOpts fooManifest "foo.js" "out" State.init
      (fun _ _ => rfl) rfl⟩

/-- C9. When `rk` is the first listed revision that fails to resolve, `transpileFile` returns
an error and the sink holds exactly what it held, the optional annotation block, the stub
line and the contents of the revisions before `rk`, in order: the files are those the run on
the revisions before `rk` alone leaves, and the only calls made after that run are lookups
of `rk`; no later revision is resolved and nothing is rolled back. -/
theorem C9_resolution_failure_keeps_written (env : Env) (repo : Repository)
    (opts : transpiler.Options) (manifest : Manifest) (path output : String)
    (pre post : List String) (rk : String) (contents : List String) (s : State)
    (hfun : manifest.Functions = pre ++ rk :: post) (hw : Reliable env output)
    (hpre : List.Forall₂ (Resolves env repo path) pre contents)
    (hfail : FailsToResolve env repo path rk) :
    (∃ e, (transpiler.transpileFile env repo opts manifest path output s).1 = .error e) ∧
    (transpiler.transpileFile env repo opts manifest path output s).2.files output =
      some ((s.files output).getD "" ++
        ((if opts.Annotate then annotationBlock manifest else "")
          ++ ("function " ++ manifest.Class ++ "() {}\n") ++ String.join contents)) ∧
    (transpiler.transpileFile env repo opts manifest path output s).2.files =
      (transpiler.transpileFile env repo opts { manifest with Functions := pre } path output
        s).2.files ∧
    ∃ extra, (transpiler.transpileFile env repo opts manifest path output s).2.calls =
      (transpiler.transpileFile env repo opts { manifest with Functions := pre } path output
        s).2.calls ++ extra ∧ extra <+: lookupCalls env path rk := by
  obtain ⟨hs1, hstep⟩ := transpiler.transpileFile_reaches env repo opts manifest path output pre
    post rk contents s hfun hw hpre
  obtain ⟨⟨e, he⟩, hfiles, extra, hcalls, hextra⟩ := transpiler.body_fails env repo opts path
    output rk (transpiler.transpileFile env repo opts { manifest with Functions := pre } path
      output s).2 hfail
  rw [hstep e he]
  refine ⟨⟨e, rfl⟩, ?_, hfiles, extra, hcalls, hextra⟩
  show (transpiler.transpileFile.body env repo opts path output rk _).2.files output = _
  rw [hfiles, hs1]
  simp [unitBytes, stubLine]

/-- C9, at the unit `baz` of the example world, whose second revision `c9` is missing. -/
theorem C9_resolution_failure_keeps_written_witness :
    bazManifest.Functions = ["c1"] ++ "c9" :: ["c2"] ∧ Reliable exampleEnv "out" ∧
    List.Forall₂ (Resolves exampleEnv exampleRepo "baz.js") ["c1"] ["Baz.prototype.one = 1;\n"] ∧
    FailsToResolve exampleEnv exampleRepo "baz.js" "c9" ∧
    (transpiler.transpileFile exampleEnv exampleRepo plainOpts bazManifest "baz.js" "out"
      State.init).2.files "out" = some "function Baz() {}\nBaz.prototype.one = 1;\n" :=
  have hw : Reliable exampleEnv "out" := fun _ _ => rfl
  have hpre : List.Forall₂ (Resolves exampleEnv exampleRepo "baz.js") ["c1"]
      ["Baz.prototype.one = 1;\n"] := .cons ⟨_, _, rfl, rfl, rfl⟩ .nil
  have hfail : FailsToResolve exampleEnv exampleRepo "baz.js" "c9" := Or.inl ⟨_, rfl⟩
  ⟨rfl, hw, hpre, hfail,
    (C9_resolution_failure_keeps_written exampleEnv exampleRepo plainOpts bazManifest "baz.js"
      "out" ["c1"] ["c2"] "c9" _ State.init rfl hw hpre hfail).2.1⟩

/-- C8, as stated, fails: for the unit `baz` of the example world, whose revision `c9` is
absent from the history, the error of either engine names the revision, and the companion
file path `baz.js` occurs nowhere in its message. -/
theorem C8_message_counterexample :
    (transpiler.transpileFile exampleEnv exampleRepo plainOpts bazManifest "baz.js" "out"
      State.init).1 = .error "getting commit c9: object not found" ∧
    (jdsl.processInput exampleEnv exampleRepo oldPlainOpts "baz.js" State.init).1 =
      .error "getting commit c9: object not found" ∧
    ¬ ("baz.js".data <:+: "getting commit c9: object not found".data) := by
  refine ⟨rfl, rfl, ?_⟩
  decide

/-- C8, amended. For the first listed revision `rk` that fails to resolve, `transpileFile`
fails with a message that depends on the cause: `getting commit <rk>: <cause>` when the
revision is absent from the history (the revision is named, the path is not),
`getting file <path>: <cause>` when the path is missing at that revision and
`getting reader for <path>: <cause>` when the content cannot be opened (the path is named,
the revision is not). -/
theorem C8_resolution_error_messages (env : Env) (repo : Repository)
    (opts : transpiler.Options) (manifest : Manifest) (path output : String)
    (pre post : List String) (rk : String) (contents : List String) (s : State)
    (hfun : manifest.Functions = pre ++ rk :: post) (hw : Reliable env output)
    (hpre : List.Forall₂ (Resolves env repo path) pre contents) :
    (∀ cause, repo.CommitObject (env.NewHash rk) = .error cause →
      (transpiler.transpileFile env repo opts manifest path output s).1 =
        .error ("getting commit " ++ rk ++ ": " ++ cause)) ∧
    (∀ commit cause, repo.CommitObject (env.NewHash rk) = .ok commit →
      commit.File path = .error cause →
      (transpiler.transpileFile env repo opts manifest path output s).1 =
        .error ("getting file " ++ path ++ ": " ++ cause)) ∧
    (∀ commit commitFile cause, repo.CommitObject (env.NewHash rk) = .ok commit →
      commit.File path = .ok commitFile → commitFile.Reader = .error cause →
      (transpiler.transpileFile env repo opts manifest path output s).1 =
        .error ("getting reader for " ++ path ++ ": " ++ cause)) := by
  obtain ⟨_, hstep⟩ := transpiler.transpileFile_reaches env repo opts manifest path output pre
    post rk contents s hfun hw hpre
  refine ⟨?_, ?_, ?_⟩
  · intro cause h1
    rw [hstep _ (by rw [transpiler.body_commit_missing _ _ _ _ _ _ _ _ h1])]
  · intro commit cause h1 h2
    rw [hstep _ (by rw [transpiler.body_file_missing _ _ _ _ _ _ _ _ _ h1 h2])]
  · intro commit commitFile cause h1 h2 h3
    rw [hstep _ (by rw [transpiler.body_reader_missing _ _ _ _ _ _ _ _ _ _ h1 h2 h3])]

/-- C8 amended, at the unit `baz` of the example world, whose second revision `c9` is
missing. -/
theorem C8_resolution_error_messages_witness :
    bazManifest.Functions = ["c1"] ++ "c9" :: ["c2"] ∧ Reliable exampleEnv "out" ∧
    List.Forall₂ (Resolves exampleEnv exampleRepo "baz.js") ["c1"] ["Baz.prototype.one = 1;\n"] ∧
    exampleRepo.CommitObject (exampleEnv.NewHash "c9") = .error "object not found" ∧
    (transpiler.transpileFile exampleEnv exampleRepo plainOpts bazManifest "baz.js" "out"
      State.init).1 = .error ("getting commit " ++ "c9" ++ ": " ++ "object not found") :=
  have hw : Reliable exampleEnv "out" := fun _ _ => rfl
  have hpre : List.Forall₂ (Resolves exampleEnv exampleRepo "baz.js") ["c1"]
      ["Baz.prototype.one = 1;\n"] := .cons ⟨_, _, rfl, rfl, rfl⟩ .nil
  ⟨rfl, hw, hpre, rfl,
    (C8_resolution_error_messages exampleEnv exampleRepo plainOpts bazManifest "baz.js"
      "out" ["c1"] ["c2"] "c9" _ State.init rfl hw hpre).1 "object not found" rfl⟩

/-! ## One unit: `processInput` -/

theorem ReadFile_of_loads (env : Env) (input : String) (m : Manifest) (s : State)
    (h : Loads env input m) :
    Manifest.ReadFile env (manifestPath input) s = (.ok m, s.log (.ReadFile (manifestPath input))) := by
  obtain ⟨c, h1, h2⟩ := h
  simp [Manifest.ReadFile, bind_apply, errorf, os.ReadFile, call, h1, h2]

theorem ReadFile_ok (env : Env) (input : String) (m : Manifest) (s : State)
    (h : (Manifest.ReadFile env (manifestPath input) s).1 = .ok m) : Loads env input m := by
  revert h
  unfold Loads
  cases h1 : env.ReadFile (manifestPath input) with
  | error e => simp [Manifest.ReadFile, bind_apply, errorf, os.ReadFile, call, h1]
  | ok c =>
    cases h2 : env.Unmarshal c <;>
    simp [Manifest.ReadFile, bind_apply, errorf, os.ReadFile, call, h1, h2]

namespace transpiler

theorem processInput_eq (env : Env) (repo : Repository) (opts : Options) (input : String)
    (combinedOutput : Option String) :
    processInput env repo opts input combinedOutput =
      (errorf "reading manifest: " (JDSL.Manifest.ReadFile env (manifestPath input)) >>=
        fun manifest =>
        if (opts.Strict && manifest.File != filepath.Base (manifestPath input)) = true then
          fail ("file name in manifest (" ++ manifest.File ++ ") does not match: "
            ++ filepath.Base (manifestPath input))
        else
          match combinedOutput with
          | some output => transpileFile env repo opts manifest (jsPath input) output
          | none =>
            errorf "creating output directory: "
                (os.MkdirAll env (env.Dir (env.Join opts.OutputRoot (jsPath input)))) >>= fun _ =>
              errorf "creating output file: "
                (os.Create env (env.Join opts.OutputRoot (jsPath input))) >>= fun _ =>
              transpileFile env repo opts manifest (jsPath input)
                (env.Join opts.OutputRoot (jsPath input))) := rfl

/-- An error message that does not start with the letter `f` is not a name-mismatch message. -/
theorem not_mismatch_of_head (e : String) (c : Char) (h : e.data.head? = some c)
    (hc : c ≠ 'f') : ¬ NameMismatch e := by
  intro hm
  obtain ⟨t, ht⟩ := hm
  rw [← ht] at h
  simp at h
  exact hc h.symm

theorem bind_error_cases {α β : Type} {m : Run α} {f : α → Run β} {s : State} {e : String}
    (h : ((m >>= f) s).1 = .error e) :
    (m s).1 = .error e ∨ ∃ a, (m s).1 = .ok a ∧ (f a (m s).2).1 = .error e := by
  rcases result_cases (m s).1 with ⟨a, ha⟩ | ⟨e1, he1⟩
  · rw [bind_of_ok ha] at h
    exact Or.inr ⟨a, ha, h⟩
  · rw [bind_of_error he1] at h
    simp at h
    subst h
    exact Or.inl he1

theorem errorf_error_head {α : Type} {ctx : String} {m : Run α} {s : State} {e : String}
    (c : Char) (hc : ctx.data.head? = some c) (h : (errorf ctx m s).1 = .error e) :
    e.data.head? = some c := by
  obtain ⟨e0, _, rfl⟩ := errorf_error_elim h
  rw [String.data_append, List.head?_append, hc]
  rfl

theorem body_error_head (env : Env) (repo : Repository) (opts : Options)
    (path output function : String) (s : State) (e : String)
    (h : (transpileFile.body env repo opts path output function s).1 = .error e) :
    e.data.head? = some 'g' ∨ e.data.head? = some 'c' := by
  unfold transpileFile.body at h
  rcases bind_error_cases h with h | ⟨_, _, h⟩
  · rw [Log_fst] at h
    simp at h
  rcases bind_error_cases h with h | ⟨_, _, h⟩
  · exact Or.inl (errorf_error_head 'g' (by simp) h)
  rcases bind_error_cases h with h | ⟨_, _, h⟩
  · exact Or.inl (errorf_error_head 'g' (by simp) h)
  rcases bind_error_cases h with h | ⟨_, _, h⟩
  · exact Or.inl (errorf_error_head 'g' (by simp) h)
  · exact Or.inr (errorf_error_head 'c' (by simp) h)

theorem loop_error_head (env : Env) (repo : Repository) (opts : Options)
    (path output : String) (fs : List String) :
    ∀ (s : State) (e : String),
      (transpileFile.loop env repo opts path output fs s).1 = .error e →
      e.data.head? = some 'g' ∨ e.data.head? = some 'c' := by
  induction fs with
  | nil => intro s e h; simp [transpileFile.loop, pure, Run.pure] at h
  | cons f fs ih =>
    intro s e h
    unfold transpileFile.loop at h
    rcases bind_error_cases h with h | ⟨_, _, h⟩
    · exact body_error_head env repo opts path output f s e h
    · exact ih _ _ h

theorem transpileFile_error_head (env : Env) (repo : Repository) (opts : Options)
    (m : Manifest) (path output : String) (s : State) (e : String)
    (h : (transpileFile env repo opts m path output s).1 = .error e) :
    e.data.head? = some 'w' ∨ e.data.head? = some 'g' ∨ e.data.head? = some 'c' := by
  cases ha : opts.Annotate
  · have h0 : transpileFile env repo opts m path output =
        (errorf "writing class definition: "
          (Write env output ("function " ++ m.Class ++ "() {}\n")) >>= fun _ =>
          transpileFile.loop env repo opts path output m.Functions) := by
      simp [transpileFile, ha, run_pure_bind]
    rw [h0] at h
    rcases bind_error_cases h with h | ⟨_, _, h⟩
    · exact Or.inl (errorf_error_head 'w' (by simp) h)
    · exact Or.inr (loop_error_head env repo opts path output _ _ _ h)
  · have h0 : transpileFile env repo opts m path output =
        (errorf "writing annotation: " (Write env output (annotationBlock m)) >>= fun _ =>
          errorf "writing class definition: "
            (Write env output ("function " ++ m.Class ++ "() {}\n")) >>= fun _ =>
          transpileFile.loop env repo opts path output m.Functions) := by
      simp [transpileFile, ha, header_eq, run_pure_bind]
    rw [h0] at h
    rcases bind_error_cases h with h | ⟨_, _, h⟩
    · exact Or.inl (errorf_error_head 'w' (by simp) h)
    rcases bind_error_cases h with h | ⟨_, _, h⟩
    · exact Or.inl (errorf_error_head 'w' (by simp) h)
    · exact Or.inr (loop_error_head env repo opts path output _ _ _ h)

theorem processInput_of_loads (env : Env) (repo : Repository) (opts : Options)
    (input : String) (combinedOutput : Option String) (m : Manifest) (s : State)
    (h : Loads env input m) :
    processInput env repo opts input combinedOutput s =
      (if (opts.Strict && m.File != filepath.Base (manifestPath input)) = true then
          fail ("file name in manifest (" ++ m.File ++ ") does not match: "
            ++ filepath.Base (manifestPath input))
        else
          match combinedOutput with
          | some output => transpileFile env repo opts m (jsPath input) output
          | none =>
            errorf "creating output directory: "
                (os.MkdirAll env (env.Dir (env.Join opts.OutputRoot (jsPath input)))) >>= fun _ =>
              errorf "creating output file: "
                (os.Create env (env.Join opts.OutputRoot (jsPath input))) >>= fun _ =>
              transpileFile env repo opts m (jsPath input)
                (env.Join opts.OutputRoot (jsPath input)))
        (s.log (.ReadFile (manifestPath input))) := by
  rw [processInput_eq]
  have h1 : errorf "reading manifest: " (JDSL.Manifest.ReadFile env (manifestPath input)) s =
      (.ok m, s.log (.ReadFile (manifestPath input))) := by
    have := ReadFile_of_loads env input m s h
    rw [errorf_of_ok (by rw [this]), this]
  rw [bind_of_ok (by rw [h1]), h1]

theorem processInput_strict_mismatch (env : Env) (repo : Repository) (opts : Options)
    (input : String) (combinedOutput : Option String) (m : Manifest) (s : State)
    (hl : Loads env input m) (hstrict : opts.Strict = true)
    (hne : m.File ≠ filepath.Base (manifestPath input)) :
    processInput env repo opts input combinedOutput s =
      (.error ("file name in manifest (" ++ m.File ++ ") does not match: "
        ++ filepath.Base (manifestPath input)), s.log (.ReadFile (manifestPath input))) := by
  rw [processInput_of_loads env repo opts input combinedOutput m s hl]
  simp [hstrict, hne, fail]

theorem processInput_load_error (env : Env) (repo : Repository) (opts : Options)
    (input : String) (combinedOutput : Option String) (s : State) (e : String)
    (h : (processInput env repo opts input combinedOutput s).1 = .error e)
    (hm : NameMismatch e) :
    ∃ m, Loads env input m ∧ opts.Strict = true ∧ m.File ≠ filepath.Base (manifestPath input) := by
  rcases result_cases (JDSL.Manifest.ReadFile env (manifestPath input) s).1
    with ⟨m, hl⟩ | ⟨e0, hl⟩
  · have hl := ReadFile_ok env input m s hl
    refine ⟨m, hl, ?_⟩
    rw [processInput_of_loads env repo opts input combinedOutput m s hl] at h
    by_cases hc : (opts.Strict && m.File != filepath.Base (manifestPath input)) = true
    · simpa using hc
    · exfalso
      rw [if_neg hc] at h
      cases combinedOutput with
      | some output =>
        rcases transpileFile_error_head env repo opts m _ _ _ e h with h | h | h <;>
        exact not_mismatch_of_head e _ h (by decide) hm
      | none =>
        simp only at h
        rcases bind_error_cases h with h | ⟨_, _, h⟩
        · exact not_mismatch_of_head e _ (errorf_error_head 'c' (by simp) h) (by decide) hm
        rcases bind_error_cases h with h | ⟨_, _, h⟩
        · exact not_mismatch_of_head e _ (errorf_error_head 'c' (by simp) h) (by decide) hm
        rcases transpileFile_error_head env repo opts m _ _ _ e h with h | h | h <;>
        exact not_mismatch_of_head e _ h (by decide) hm
  · exfalso
    rw [processInput_eq] at h
    rcases bind_error_cases h with h | ⟨m, h, _⟩
    · exact not_mismatch_of_head e _ (errorf_error_head 'r' (by simp) h) (by decide) hm
    · rw [errorf_ok_iff, hl] at h
      simp at h

end transpiler

namespace jdsl

theorem Printf_eq_Log (o : Options) (path function : String) :
    fmt.Printf ("Reading " ++ path ++ " from commit " ++ function ++ "...\n") =
      (o.toNew true).Log ("Reading " ++ path ++ " from commit " ++ function ++ "...") := by
  funext s
  simp [fmt.Printf, transpiler.Options.Log, fmt.Println, Options.toNew, String.append_assoc]

theorem body_eq_new (env : Env) (repo : Repository) (o : Options)
    (path output function : String) :
    processInput.body env repo path output function =
      transpiler.transpileFile.body env repo (o.toNew true) path output function := by
  unfold processInput.body transpiler.transpileFile.body
  rw [Printf_eq_Log o]

theorem loop_eq_new (env : Env) (repo : Repository) (o : Options) (path output : String)
    (fs : List String) :
    processInput.loop env repo path output fs =
      transpiler.transpileFile.loop env repo (o.toNew true) path output fs := by
  induction fs with
  | nil => rfl
  | cons f fs ih =>
    unfold processInput.loop transpiler.transpileFile.loop
    rw [ih, body_eq_new env repo o]

theorem processInput_eq_new (env : Env) (repo : Repository) (o : Options) (input : String) :
    processInput env repo o input =
      transpiler.processInput env repo (o.toNew true) input none := by
  unfold processInput transpiler.processInput transpiler.transpileFile
  simp only [loop_eq_new env repo o]
  rfl

end jdsl

namespace transpiler

theorem processInput_complete (env : Env) (repo : Repository) (opts : Options)
    (input : String) (combinedOutput : Option String) (m : Manifest) (contents : List String)
    (s : State) (hl : Loads env input m)
    (hcheck : ¬ (opts.Strict = true ∧ m.File ≠ filepath.Base (manifestPath input)))
    (hr : List.Forall₂ (Resolves env repo (jsPath input)) m.Functions contents)
    (hw : Writable env opts.OutputRoot input combinedOutput) :
    (processInput env repo opts input combinedOutput s).1 = .ok () ∧
    (∀ output, combinedOutput = some output →
      (processInput env repo opts input combinedOutput s).2.files output =
        some ((s.files output).getD "" ++ unitBytes opts.Annotate m contents)) ∧
    (combinedOutput = none →
      (processInput env repo opts input combinedOutput s).2.files
        (env.Join opts.OutputRoot (jsPath input)) = some (unitBytes opts.Annotate m contents)) := by
  rw [processInput_of_loads env repo opts input combinedOutput m s hl]
  have hc : ¬ (opts.Strict && m.File != filepath.Base (manifestPath input)) = true := by
    simpa using hcheck
  rw [if_neg hc]
  cases combinedOutput with
  | some output =>
    obtain ⟨h1, h2⟩ := transpileFile_complete env repo opts m (jsPath input) output contents
      (s.log (.ReadFile (manifestPath input))) hw hr
    refine ⟨h1, ?_, by simp⟩
    intro out hout
    cases hout
    show (transpileFile env repo opts m (jsPath input) output _).2.files output = _
    rw [h2]
    simp [State.log]
  | none =>
    obtain ⟨hmk, hcr, hrel⟩ := hw
    have e1 : (errorf "creating output directory: "
        (os.MkdirAll env (env.Dir (env.Join opts.OutputRoot (jsPath input))))
        (s.log (.ReadFile (manifestPath input)))).1 = .ok () := by
      simp [errorf, os.MkdirAll, call, hmk, errOf]
    have e2 : ∀ t, (errorf "creating output file: "
        (os.Create env (env.Join opts.OutputRoot (jsPath input))) t).1 = .ok () := by
      intro t
      simp [errorf, os.Create, hcr]
    have e3 : ∀ t, ((errorf "creating output file: "
        (os.Create env (env.Join opts.OutputRoot (jsPath input))) t).2.files
        (env.Join opts.OutputRoot (jsPath input))) = some "" := by
      intro t
      simp [errorf, os.Create, hcr]
    simp only
    rw [bind_of_ok e1, bind_of_ok (e2 _)]
    obtain ⟨h1, h2⟩ := transpileFile_complete env repo opts m (jsPath input)
      (env.Join opts.OutputRoot (jsPath input)) contents
      ((errorf "creating output file: "
        (os.Create env (env.Join opts.OutputRoot (jsPath input)))
        (errorf "creating output directory: "
          (os.MkdirAll env (env.Dir (env.Join opts.OutputRoot (jsPath input))))
          (s.log (.ReadFile (manifestPath input)))).2).2) hrel hr
    refine ⟨h1, by simp, ?_⟩
    intro _
    rw [h2, e3]
    simp

theorem processInput_combined_sound (env : Env) (repo : Repository) (opts : Options)
    (input output : String) (s : State)
    (hok : (processInput env repo opts input (some output) s).1 = .ok ()) :
    ∃ m contents, Loads env input m ∧
      ¬ (opts.Strict = true ∧ m.File ≠ filepath.Base (manifestPath input)) ∧
      List.Forall₂ (Resolves env repo (jsPath input)) m.Functions contents ∧
      (processInput env repo opts input (some output) s).2.files output =
        some ((s.files output).getD "" ++ unitBytes opts.Annotate m contents) := by
  rcases result_cases (JDSL.Manifest.ReadFile env (manifestPath input) s).1
    with ⟨m, hl⟩ | ⟨e0, hl⟩
  · have hl := ReadFile_ok env input m s hl
    rw [processInput_of_loads env repo opts input (some output) m s hl] at hok ⊢
    by_cases hc : (opts.Strict && m.File != filepath.Base (manifestPath input)) = true
    · rw [if_pos hc] at hok
      simp [fail] at hok
    · rw [if_neg hc] at hok ⊢
      obtain ⟨contents, h1, h2⟩ := transpileFile_sound env repo opts m (jsPath input) output
        (s.log (.ReadFile (manifestPath input))) hok
      exact ⟨m, contents, hl, by simpa using hc, h1, by rw [h2]; simp [State.log]⟩
  · exfalso
    rw [processInput_eq, bind_of_error (by rw [errorf_of_error hl])] at hok
    simp at hok

end transpiler

/-! ## The claims about `processInput` -/

/-- C3. In strict mode, for every manifest whose `File` field differs from the base name of
its own manifest path, `processInput` (of either engine, in per-unit or in combined mode)
returns the name-mismatch error, and the only thing it has done is to read the manifest: the
files and the standard output are untouched and no call on the repository, no creation and no
write has been made. -/
theorem C3_strict_mismatch_fails_first (env : Env) (repo : Repository)
    (opts : transpiler.Options) (o : jdsl.Options) (input : String)
    (combinedOutput : Option String) (m : Manifest) (s : State)
    (hl : Loads env input m) (hne : m.File ≠ filepath.Base (manifestPath input)) :
    (opts.Strict = true →
      transpiler.processInput env repo opts input combinedOutput s =
        (.error ("file name in manifest (" ++ m.File ++ ") does not match: "
            ++ filepath.Base (manifestPath input)),
          { s with calls := s.calls ++ [.ReadFile (manifestPath input)] })) ∧
    (o.Strict = true →
      jdsl.processInput env repo o input s =
        (.error ("file name in manifest (" ++ m.File ++ ") does not match: "
            ++ filepath.Base (manifestPath input)),
          { s with calls := s.calls ++ [.ReadFile (manifestPath input)] })) := by
  constructor
  · intro hs
    exact transpiler.processInput_strict_mismatch env repo opts input combinedOutput m s hl hs hne
  · intro hs
    rw [jdsl.processInput_eq_new]
    exact transpiler.processInput_strict_mismatch env repo (o.toNew true) input none m s hl hs hne

/-- C3, at the unit `bar` of the example world, whose manifest declares `other.json`. -/
theorem C3_strict_mismatch_fails_first_witness :
    Loads exampleEnv "bar.js" barManifest ∧
    barManifest.File ≠ filepath.Base (manifestPath "bar.js") ∧
    transpiler.processInput exampleEnv exampleRepo strictOpts "bar.js" none State.init =
      (.error "file name in manifest (other.json) does not match: bar.json",
        { State.init with calls := [.ReadFile "bar.json"] }) :=
  have hl : Loads exampleEnv "bar.js" barManifest := ⟨"bar", rfl, rfl⟩
  have hne : barManifest.File ≠ filepath.Base (manifestPath "bar.js") := by decide
  ⟨hl, hne, (C3_strict_mismatch_fails_first exampleEnv exampleRepo strictOpts oldStrictOpts
    "bar.js" none barManifest State.init hl hne).1 rfl⟩

/-- C4. When `Strict` is not set the name check is skipped: `processInput` (of either
engine) never returns a name-mismatch error, and for every manifest, mismatched or not, whose
revisions all resolve and whose output can be written, it succeeds.  For a manifest that
loads, `processInput` returns a name-mismatch error if and only if `Strict` is set and `File`
differs from the base name of the manifest path. -/
theorem C4_name_check_only_in_strict (env : Env) (repo : Repository)
    (opts : transpiler.Options) (o : jdsl.Options) (input : String)
    (combinedOutput : Option String) (s : State) :
    (opts.Strict = false → ¬ ∃ e,
      (transpiler.processInput env repo opts input combinedOutput s).1 = .error e ∧
        NameMismatch e) ∧
    (o.Strict = false → ¬ ∃ e,
      (jdsl.processInput env repo o input s).1 = .error e ∧ NameMismatch e) ∧
    ∀ m, Loads env input m →
      ((∃ e, (transpiler.processInput env repo opts input combinedOutput s).1 = .error e ∧
          NameMismatch e) ↔
        (opts.Strict = true ∧ m.File ≠ filepath.Base (manifestPath input))) ∧
      ((∃ e, (jdsl.processInput env repo o input s).1 = .error e ∧ NameMismatch e) ↔
        (o.Strict = true ∧ m.File ≠ filepath.Base (manifestPath input))) ∧
      ∀ contents, List.Forall₂ (Resolves env repo (jsPath input)) m.Functions contents →
        (opts.Strict = false → Writable env opts.OutputRoot input combinedOutput →
          (transpiler.processInput env repo opts input combinedOutput s).1 = .ok ()) ∧
        (o.Strict = false → Writable env o.OutputRoot input none →
          (jdsl.processInput env repo o input s).1 = .ok ()) := by
  have key : ∀ (p : transpiler.Options) (co : Option String) (m : Manifest),
      Loads env input m →
      ((∃ e, (transpiler.processInput env repo p input co s).1 = .error e ∧ NameMismatch e) ↔
        (p.Strict = true ∧ m.File ≠ filepath.Base (manifestPath input))) := by
    intro p co m hl
    constructor
    · rintro ⟨e, he, hm⟩
      obtain ⟨m1, hl1, hs, hne⟩ := transpiler.processInput_load_error env repo p input co s e he hm
      obtain ⟨c, hc1, hc2⟩ := hl
      obtain ⟨c1, hd1, hd2⟩ := hl1
      rw [hc1] at hd1
      cases hd1
      rw [hc2] at hd2
      cases hd2
      exact ⟨hs, hne⟩
    · rintro ⟨hs, hne⟩
      refine ⟨_, by rw [transpiler.processInput_strict_mismatch env repo p input co m s hl hs hne],
        ?_⟩
      exact ⟨_, by simp [String.append_assoc]; rfl⟩
  refine ⟨?_, ?_, ?_⟩
  · rintro hs ⟨e, he, hm⟩
    obtain ⟨_, _, h, _⟩ := transpiler.processInput_load_error env repo opts input _ s e he hm
    rw [hs] at h
    exact Bool.noConfusion h
  · rintro hs ⟨e, he, hm⟩
    rw [jdsl.processInput_eq_new] at he
    obtain ⟨_, _, h, _⟩ := transpiler.processInput_load_error env repo _ input _ s e he hm
    exact Bool.noConfusion (hs.symm.trans h)
  · intro m hl
    refine ⟨key opts combinedOutput m hl, ?_, ?_⟩
    · rw [jdsl.processInput_eq_new]
      exact key (o.toNew true) none m hl
    · intro contents hr
      constructor
      · intro hs hw
        exact (transpiler.processInput_complete env repo opts input combinedOutput m contents s
          hl (by simp [hs]) hr hw).1
      · intro hs hw
        rw [jdsl.processInput_eq_new]
        exact (transpiler.processInput_complete env repo (o.toNew true) input none m contents s
          hl (by simp [jdsl.Options.toNew, hs]) hr hw).1

/-- C4, at the unit `bar` of the example world, whose manifest declares `other.json`: without
`Strict` both engines succeed. -/
theorem C4_name_check_only_in_strict_witness :
    Loads exampleEnv "bar.js" barManifest ∧
    barManifest.File ≠ filepath.Base (manifestPath "bar.js") ∧
    List.Forall₂ (Resolves exampleEnv exampleRepo (jsPath "bar.js")) barManifest.Functions
      ["Bar.prototype.two = 2;\n"] ∧
    Writable exampleEnv "dist" "bar.js" none ∧
    (transpiler.processInput exampleEnv exampleRepo plainOpts "bar.js" none State.init).1 = .ok () ∧
    (jdsl.processInput exampleEnv exampleRepo oldPlainOpts "bar.js" State.init).1 = .ok () :=
  have hl : Loads exampleEnv "bar.js" barManifest := ⟨"bar", rfl, rfl⟩
  have hr : List.Forall₂ (Resolves exampleEnv exampleRepo (jsPath "bar.js"))
      barManifest.Functions ["Bar.prototype.two = 2;\n"] := .cons ⟨_, _, rfl, rfl, rfl⟩ .nil
  have hw : Writable exampleEnv "dist" "bar.js" none := ⟨rfl, rfl, fun _ _ => rfl⟩
  have h := (C4_name_check_only_in_strict exampleEnv exampleRepo plainOpts oldPlainOpts "bar.js"
    none State.init).2.2 barManifest hl
  ⟨hl, by decide, hr, hw, (h.2.2 _ hr).1 rfl hw, (h.2.2 _ hr).2 rfl hw⟩

/-! ## The loop over the inputs: `Transpile` -/

namespace transpiler

theorem loop_inputs (env : Env) (repo : Repository) (opts : Options) (l : List String)
    (path output : String) (fs : List String) :
    transpileFile.loop env repo { opts with Inputs := l } path output fs =
      transpileFile.loop env repo opts path output fs := by
  induction fs with
  | nil => rfl
  | cons f fs ih =>
    unfold transpileFile.loop
    rw [ih]
    rfl

theorem processInput_inputs (env : Env) (repo : Repository) (opts : Options) (l : List String)
    (input : String) (combinedOutput : Option String) :
    processInput env repo { opts with Inputs := l } input combinedOutput =
      processInput env repo opts input combinedOutput := by
  unfold processInput transpileFile
  simp only [loop_inputs]

theorem Transpile_loop_inputs (env : Env) (ctx : Ctx) (repo : Repository) (opts : Options)
    (l : List String) (combinedOutput : Option String) (xs : List String) :
    ∀ i, Transpile.loop env ctx repo { opts with Inputs := l } combinedOutput i xs =
      Transpile.loop env ctx repo opts combinedOutput i xs := by
  induction xs with
  | nil => intro i; rfl
  | cons x xs ih =>
    intro i
    unfold Transpile.loop Transpile.body
    rw [ih, processInput_inputs]

theorem Transpile_loop_append_ok (env : Env) (ctx : Ctx) (repo : Repository) (opts : Options)
    (combinedOutput : Option String) (pre post : List String) :
    ∀ (i : Nat) (s : State),
      (Transpile.loop env ctx repo opts combinedOutput i pre s).1 = .ok () →
      Transpile.loop env ctx repo opts combinedOutput i (pre ++ post) s =
        Transpile.loop env ctx repo opts combinedOutput (i + pre.length) post
          (Transpile.loop env ctx repo opts combinedOutput i pre s).2 := by
  induction pre with
  | nil => intro i s _; rfl
  | cons x xs ih =>
    intro i s hok
    rcases result_cases (Transpile.body env ctx repo opts combinedOutput i x s).1
      with ⟨u, hb⟩ | ⟨e, hb⟩
    · have hstep : ∀ l, Transpile.loop env ctx repo opts combinedOutput i (x :: l) s =
          Transpile.loop env ctx repo opts combinedOutput (i + 1) l
            (Transpile.body env ctx repo opts combinedOutput i x s).2 := fun l => bind_of_ok hb
      rw [List.cons_append, hstep, hstep]
      rw [hstep] at hok
      rw [ih _ _ hok]
      simp [Nat.add_assoc, Nat.add_comm 1]
    · have hstep : Transpile.loop env ctx repo opts combinedOutput i (x :: xs) s =
          (.error e, (Transpile.body env ctx repo opts combinedOutput i x s).2) :=
        bind_of_error hb
      rw [hstep] at hok
      simp at hok

theorem Transpile_loop_append_error (env : Env) (ctx : Ctx) (repo : Repository) (opts : Options)
    (combinedOutput : Option String) (pre post : List String) :
    ∀ (i : Nat) (s : State) (e : String),
      (Transpile.loop env ctx repo opts combinedOutput i pre s).1 = .error e →
      Transpile.loop env ctx repo opts combinedOutput i (pre ++ post) s =
        Transpile.loop env ctx repo opts combinedOutput i pre s := by
  induction pre with
  | nil => intro i s e h; simp [Transpile.loop, pure, Run.pure] at h
  | cons x xs ih =>
    intro i s e h
    rcases result_cases (Transpile.body env ctx repo opts combinedOutput i x s).1
      with ⟨u, hb⟩ | ⟨e1, hb⟩
    · have hstep : ∀ l, Transpile.loop env ctx repo opts combinedOutput i (x :: l) s =
          Transpile.loop env ctx repo opts combinedOutput (i + 1) l
            (Transpile.body env ctx repo opts combinedOutput i x s).2 := fun l => bind_of_ok hb
      rw [List.cons_append, hstep, hstep]
      rw [hstep] at h
      exact ih _ _ e h
    · have hstep : ∀ l, Transpile.loop env ctx repo opts combinedOutput i (x :: l) s =
          (.error e1, (Transpile.body env ctx repo opts combinedOutput i x s).2) :=
        fun l => bind_of_error hb
      rw [List.cons_append, hstep, hstep]

/-- What `Transpile` does before its loop: either it fails there, whatever the inputs, or the
repository opens, the output is set up, and the run is the loop from the state `s0` reached;
in combined mode the shared file is empty in `s0`. -/
theorem Transpile_cases (env : Env) (ctx : Ctx) (opts : Options) (s : State) :
    (∃ e s1, ∀ l, Transpile env ctx { opts with Inputs := l } s = (.error e, s1)) ∨
    (∃ repo s0, env.PlainOpen opts.GitRoot = .ok repo ∧
      (opts.CombinedOutput.length > 0 → s0.files opts.CombinedOutput = some "") ∧
      ∀ l, Transpile env ctx { opts with Inputs := l } s =
        Transpile.loop env ctx repo opts opts.writer 0 l s0) := by
  cases h1 : env.PlainOpen opts.GitRoot with
  | error e =>
    left
    exact ⟨"opening repo: " ++ e, s.log (.PlainOpen opts.GitRoot), fun l => by
      simp [Transpile, bind_apply, errorf, call, h1]⟩
  | ok repo =>
    by_cases hc : opts.CombinedOutput.length > 0
    · cases h2 : env.MkdirAll (env.Dir opts.CombinedOutput) with
      | some e =>
        left
        exact ⟨"creating output directory: " ++ e,
          (s.log (.PlainOpen opts.GitRoot)).log (.MkdirAll (env.Dir opts.CombinedOutput)),
          fun l => by
            simp [Transpile, Transpile.open, bind_apply, errorf, call, h1, hc, os.MkdirAll, h2,
              errOf]⟩
      | none =>
        cases h3 : env.Create opts.CombinedOutput with
        | some e =>
          left
          exact ⟨"creating combined output file: " ++ e,
            ((s.log (.PlainOpen opts.GitRoot)).log (.MkdirAll (env.Dir opts.CombinedOutput))).log
              (.Create opts.CombinedOutput),
            fun l => by
              simp [Transpile, Transpile.open, bind_apply, errorf, call, h1, hc, os.MkdirAll, h2,
                errOf, os.Create, h3]⟩
        | none =>
          right
          refine ⟨repo, (os.Create env opts.CombinedOutput
            ((s.log (.PlainOpen opts.GitRoot)).log
              (.MkdirAll (env.Dir opts.CombinedOutput)))).2, rfl, ?_, fun l => ?_⟩
          · intro _
            simp [os.Create, h3]
          · simp [Transpile, Transpile.open, bind_apply, errorf, call, h1, hc, os.MkdirAll, h2,
              errOf, os.Create, h3, pure, Run.pure, Options.writer, Transpile_loop_inputs]
    · cases h2 : env.MkdirAll opts.OutputRoot with
      | some e =>
        left
        exact ⟨"creating output directory: " ++ e,
          (s.log (.PlainOpen opts.GitRoot)).log (.MkdirAll opts.OutputRoot), fun l => by
            simp [Transpile, Transpile.open, bind_apply, errorf, call, h1, hc, os.MkdirAll, h2,
              errOf]⟩
      | none =>
        right
        refine ⟨repo, (s.log (.PlainOpen opts.GitRoot)).log (.MkdirAll opts.OutputRoot), rfl,
          fun h => absurd h hc, fun l => ?_⟩
        simp [Transpile, Transpile.open, bind_apply, errorf, call, h1, hc, os.MkdirAll, h2,
          errOf, pure, Run.pure, Options.writer, Transpile_loop_inputs]

theorem Transpile_body_ok (env : Env) (ctx : Ctx) (repo : Repository) (opts : Options)
    (combinedOutput : Option String) (i : Nat) (input : String) (s : State)
    (h : (Transpile.body env ctx repo opts combinedOutput i input s).1 = .ok ()) :
    ctx i = none ∧ (processInput env repo opts input combinedOutput s).1 = .ok () ∧
    Transpile.body env ctx repo opts combinedOutput i input s =
      (.ok (), (processInput env repo opts input combinedOutput s).2) := by
  unfold Transpile.body at h ⊢
  cases hc : ctx i with
  | some reason => rw [hc] at h; simp [fail] at h
  | none =>
    rw [hc] at h
    have h1 := (errorf_ok_iff _ _ _ _).1 h
    exact ⟨rfl, h1, errorf_of_ok h1⟩

theorem Transpile_loop_ok_ctx (env : Env) (ctx : Ctx) (repo : Repository) (opts : Options)
    (combinedOutput : Option String) (xs : List String) :
    ∀ (i : Nat) (s : State), (Transpile.loop env ctx repo opts combinedOutput i xs s).1 = .ok () →
      ∀ j, j < xs.length → ctx (i + j) = none := by
  induction xs with
  | nil => intro i s _ j hj; simp at hj
  | cons x xs ih =>
    intro i s hok j hj
    rcases result_cases (Transpile.body env ctx repo opts combinedOutput i x s).1
      with ⟨u, hb⟩ | ⟨e, hb⟩
    · have hstep : Transpile.loop env ctx repo opts combinedOutput i (x :: xs) s =
          Transpile.loop env ctx repo opts combinedOutput (i + 1) xs
            (Transpile.body env ctx repo opts combinedOutput i x s).2 := bind_of_ok hb
      rw [hstep] at hok
      cases j with
      | zero => exact (Transpile_body_ok env ctx repo opts combinedOutput i x s hb).1
      | succ j =>
        have := ih _ _ hok j (by simpa using hj)
        rw [← this]
        congr 1
        omega
    · have hstep : Transpile.loop env ctx repo opts combinedOutput i (x :: xs) s =
          (.error e, (Transpile.body env ctx repo opts combinedOutput i x s).2) :=
        bind_of_error hb
      rw [hstep] at hok
      simp at hok

theorem ownOutput_eq (env : Env) (repo : Repository) (opts : Options) (input : String)
    (m : Manifest) (contents : List String) (hl : Loads env input m)
    (hcheck : ¬ (opts.Strict = true ∧ m.File ≠ filepath.Base (manifestPath input)))
    (hr : List.Forall₂ (Resolves env repo (jsPath input)) m.Functions contents) :
    ownOutput env repo opts input = unitBytes opts.Annotate m contents := by
  have h := (processInput_complete env.reliable repo opts input (some "sink") m contents
    State.init hl hcheck hr (fun _ _ => rfl)).2.1 "sink" rfl
  unfold ownOutput
  rw [h]
  simp [State.init]

theorem Transpile_loop_combined (env : Env) (ctx : Ctx) (repo : Repository) (opts : Options)
    (output : String) (xs : List String) :
    ∀ (i : Nat) (s : State) (cur : String), s.files output = some cur →
      (Transpile.loop env ctx repo opts (some output) i xs s).1 = .ok () →
      (Transpile.loop env ctx repo opts (some output) i xs s).2.files output =
        some (cur ++ String.join (xs.map (ownOutput env repo opts))) := by
  induction xs with
  | nil =>
    intro i s cur hs _
    show s.files output = _
    simp [hs, join_nil]
  | cons x xs ih =>
    intro i s cur hs hok
    rcases result_cases (Transpile.body env ctx repo opts (some output) i x s).1
      with ⟨u, hb⟩ | ⟨e, hb⟩
    · have hstep : Transpile.loop env ctx repo opts (some output) i (x :: xs) s =
          Transpile.loop env ctx repo opts (some output) (i + 1) xs
            (Transpile.body env ctx repo opts (some output) i x s).2 := bind_of_ok hb
      obtain ⟨_, hp, hbeq⟩ := Transpile_body_ok env ctx repo opts (some output) i x s hb
      obtain ⟨m, contents, hl, hcheck, hr, hf⟩ :=
        processInput_combined_sound env repo opts x output s hp
      have hs1 : (Transpile.body env ctx repo opts (some output) i x s).2.files output =
          some (cur ++ ownOutput env repo opts x) := by
        rw [hbeq, ownOutput_eq env repo opts x m contents hl hcheck hr]
        show (processInput env repo opts x (some output) s).2.files output = _
        rw [hf, hs]
        rfl
      rw [hstep] at hok ⊢
      rw [ih _ _ _ hs1 hok, List.map_cons, join_cons, String.append_assoc]
    · have hstep : Transpile.loop env ctx repo opts (some output) i (x :: xs) s =
          (.error e, (Transpile.body env ctx repo opts (some output) i x s).2) :=
        bind_of_error hb
      rw [hstep] at hok
      simp at hok

end transpiler

/-! ## The claims about `Transpile` -/

/-- C5. In `transpiler.Transpile` the cancellation signal is checked before each input: when
the run on the first `k - 1` inputs alone succeeds (so the signal was not seen raised at any
of their checks) and the signal is raised at the check before unit `k`, the run returns the
signal's reason unwrapped and leaves the world exactly as the run on the first `k - 1` inputs
leaves it: those units are written in full and nothing at all is done for the units from `k`
on. -/
theorem C5_cancellation_between_units (env : Env) (ctx : Ctx) (opts : transpiler.Options)
    (pre post : List String) (u : String) (reason : String) (s : State)
    (hpre : (transpiler.Transpile env ctx { opts with Inputs := pre } s).1 = .ok ())
    (hctx : ctx pre.length = some reason) :
    transpiler.Transpile env ctx { opts with Inputs := pre ++ u :: post } s =
      (.error reason, (transpiler.Transpile env ctx { opts with Inputs := pre } s).2) ∧
    ∀ j, j < pre.length → ctx j = none := by
  rcases transpiler.Transpile_cases env ctx opts s with ⟨e, s1, h⟩ | ⟨repo, s0, _, _, h⟩
  · rw [h] at hpre
    simp at hpre
  · rw [h] at hpre
    rw [h, h, transpiler.Transpile_loop_append_ok env ctx repo opts _ pre (u :: post) 0 s0 hpre]
    constructor
    · have hb : (transpiler.Transpile.body env ctx repo opts opts.writer (0 + pre.length) u
          (transpiler.Transpile.loop env ctx repo opts opts.writer 0 pre s0).2) =
          (.error reason, (transpiler.Transpile.loop env ctx repo opts opts.writer 0 pre s0).2) := by
        unfold transpiler.Transpile.body
        rw [Nat.zero_add, hctx]
        rfl
      have hstep : transpiler.Transpile.loop env ctx repo opts opts.writer (0 + pre.length)
          (u :: post) (transpiler.Transpile.loop env ctx repo opts opts.writer 0 pre s0).2 =
          (.error reason, (transpiler.Transpile.body env ctx repo opts opts.writer
            (0 + pre.length) u
            (transpiler.Transpile.loop env ctx repo opts opts.writer 0 pre s0).2).2) :=
        bind_of_error (by rw [hb])
      rw [hstep, hb]
    · intro j hj
      have := transpiler.Transpile_loop_ok_ctx env ctx repo opts _ pre 0 s0 hpre j hj
      simpa using this

/-- C5, in the example world: the signal is raised before the second of three units. -/
theorem C5_cancellation_between_units_witness :
    (transpiler.Transpile exampleEnv (raisedFrom 1) { plainOpts with Inputs := ["foo.js"] }
      State.init).1 = .ok () ∧
    raisedFrom 1 ["foo.js"].length = some "context canceled" ∧
    transpiler.Transpile exampleEnv (raisedFrom 1)
        { plainOpts with Inputs := ["foo.js"] ++ "bar.js" :: ["nil.js"] } State.init =
      (.error "context canceled",
        (transpiler.Transpile exampleEnv (raisedFrom 1) { plainOpts with Inputs := ["foo.js"] }
          State.init).2) :=
  ⟨rfl, rfl, (C5_cancellation_between_units exampleEnv (raisedFrom 1) plainOpts ["foo.js"]
    ["nil.js"] "bar.js" "context canceled" State.init rfl rfl).1⟩

/-- C6. In combined-output mode, when the run succeeds (every unit succeeds and the signal is
never seen raised), the shared file holds exactly the concatenation, in input order, of each
unit's own output, the bytes `processInput` writes for that unit alone into an empty writer;
nothing stands before, between or after the units.  For the inputs `[a, b]` it is the output
of `a` directly followed by the output of `b`. -/
theorem C6_combined_output_concatenates (env : Env) (ctx : Ctx) (opts : transpiler.Options)
    (repo : Repository) (s : State)
    (hc : opts.CombinedOutput.length > 0)
    (hrepo : env.PlainOpen opts.GitRoot = .ok repo)
    (hok : (transpiler.Transpile env ctx opts s).1 = .ok ()) :
    (transpiler.Transpile env ctx opts s).2.files opts.CombinedOutput =
      some (String.join (opts.Inputs.map (transpiler.ownOutput env repo opts))) ∧
    ∀ a b, opts.Inputs = [a, b] →
      (transpiler.Transpile env ctx opts s).2.files opts.CombinedOutput =
        some (transpiler.ownOutput env repo opts a ++ transpiler.ownOutput env repo opts b) := by
  have main : (transpiler.Transpile env ctx opts s).2.files opts.CombinedOutput =
      some (String.join (opts.Inputs.map (transpiler.ownOutput env repo opts))) := by
    rcases transpiler.Transpile_cases env ctx opts s with ⟨e, s1, h⟩ | ⟨repo1, s0, hr1, hs0, h⟩
    · have h1 := h opts.Inputs
      change transpiler.Transpile env ctx opts s = _ at h1
      rw [h1] at hok
      simp at hok
    · have h1 := h opts.Inputs
      change transpiler.Transpile env ctx opts s = _ at h1
      rw [hrepo] at hr1
      cases hr1
      have hwr : opts.writer = some opts.CombinedOutput := by
        simp [transpiler.Options.writer, hc]
      rw [h1, hwr] at hok ⊢
      rw [transpiler.Transpile_loop_combined env ctx repo opts opts.CombinedOutput opts.Inputs 0
        s0 "" (hs0 hc) hok]
      simp
  refine ⟨main, ?_⟩
  intro a b hab
  rw [main, hab]
  simp [join_cons, join_nil]

/-- C6, in the example world: the units `foo` and `bar` into `all.js`. -/
theorem C6_combined_output_concatenates_witness :
    combinedOpts.CombinedOutput.length > 0 ∧
    exampleEnv.PlainOpen combinedOpts.GitRoot = .ok exampleRepo ∧
    (transpiler.Transpile exampleEnv neverDone combinedOpts State.init).1 = .ok () ∧
    (transpiler.Transpile exampleEnv neverDone combinedOpts State.init).2.files "all.js" =
      some ("function Foo() {}\nFoo.prototype.one = 1;\nFoo.prototype.two = 2;\n"
        ++ "Foo.prototype.one = 1;\n" ++ "function Bar() {}\nBar.prototype.two = 2;\n") :=
  ⟨by decide, rfl, rfl,
    (C6_combined_output_concatenates exampleEnv neverDone combinedOpts exampleRepo State.init
      (by decide) rfl rfl).1⟩

/-- C7. `Transpile` is fail-fast.  When the run on the inputs before unit `k` alone succeeds,
the signal is not raised at the check before unit `k` and processing that unit returns an
error, `Transpile` returns that error behind `processing input: ` and leaves the world as
unit `k` left it: the earlier units are done in full and in order and nothing is done for
the later ones.  And `Transpile` succeeds on inputs running up to and beyond a unit only if
the run on the inputs before it succeeds and that unit succeeds. -/
theorem C7_fail_fast (env : Env) (ctx : Ctx) (opts : transpiler.Options) (repo : Repository)
    (pre post : List String) (u : String) (s : State)
    (hrepo : env.PlainOpen opts.GitRoot = .ok repo) :
    ((transpiler.Transpile env ctx { opts with Inputs := pre } s).1 = .ok () →
      ctx pre.length = none →
      ∀ e, (transpiler.processInput env repo opts u opts.writer
          (transpiler.Transpile env ctx { opts with Inputs := pre } s).2).1 = .error e →
        transpiler.Transpile env ctx { opts with Inputs := pre ++ u :: post } s =
          (.error ("processing input: " ++ e),
            (transpiler.processInput env repo opts u opts.writer
              (transpiler.Transpile env ctx { opts with Inputs := pre } s).2).2)) ∧
    ((transpiler.Transpile env ctx { opts with Inputs := pre ++ u :: post } s).1 = .ok () →
      (transpiler.Transpile env ctx { opts with Inputs := pre } s).1 = .ok () ∧
      (transpiler.processInput env repo opts u opts.writer
        (transpiler.Transpile env ctx { opts with Inputs := pre } s).2).1 = .ok ()) := by
  rcases transpiler.Transpile_cases env ctx opts s with ⟨e, s1, h⟩ | ⟨repo1, s0, hr1, _, h⟩
  · constructor
    · intro hpre
      rw [h] at hpre
      simp at hpre
    · intro hall
      rw [h] at hall
      simp at hall
  · rw [hrepo] at hr1
    cases hr1
    rw [h, h]
    constructor
    · intro hpre hctx e he
      rw [transpiler.Transpile_loop_append_ok env ctx repo opts _ pre (u :: post) 0 s0 hpre]
      have hb : transpiler.Transpile.body env ctx repo opts opts.writer (0 + pre.length) u
          (transpiler.Transpile.loop env ctx repo opts opts.writer 0 pre s0).2 =
          (.error ("processing input: " ++ e), (transpiler.processInput env repo opts u
            opts.writer (transpiler.Transpile.loop env ctx repo opts opts.writer 0 pre s0).2).2) := by
        unfold transpiler.Transpile.body
        rw [Nat.zero_add, hctx]
        exact errorf_of_error he
      have hstep : transpiler.Transpile.loop env ctx repo opts opts.writer (0 + pre.length)
          (u :: post) (transpiler.Transpile.loop env ctx repo opts opts.writer 0 pre s0).2 =
          (.error ("processing input: " ++ e), (transpiler.Transpile.body env ctx repo opts
            opts.writer (0 + pre.length) u
            (transpiler.Transpile.loop env ctx repo opts opts.writer 0 pre s0).2).2) :=
        bind_of_error (by rw [hb])
      rw [hstep, hb]
    · intro hall
      rcases result_cases (transpiler.Transpile.loop env ctx repo opts opts.writer 0 pre s0).1
        with ⟨_, hp⟩ | ⟨e, hp⟩
      · refine ⟨hp, ?_⟩
        rw [transpiler.Transpile_loop_append_ok env ctx repo opts _ pre (u :: post) 0 s0 hp]
          at hall
        rcases result_cases (transpiler.Transpile.body env ctx repo opts opts.writer
          (0 + pre.length) u
          (transpiler.Transpile.loop env ctx repo opts opts.writer 0 pre s0).2).1
          with ⟨_, hb⟩ | ⟨e, hb⟩
        · exact (transpiler.Transpile_body_ok env ctx repo opts _ _ u _ hb).2.1
        · have hstep : transpiler.Transpile.loop env ctx repo opts opts.writer (0 + pre.length)
              (u :: post) (transpiler.Transpile.loop env ctx repo opts opts.writer 0 pre s0).2 =
              (.error e, (transpiler.Transpile.body env ctx repo opts
                opts.writer (0 + pre.length) u
                (transpiler.Transpile.loop env ctx repo opts opts.writer 0 pre s0).2).2) :=
            bind_of_error hb
          rw [hstep] at hall
          simp at hall
      · rw [transpiler.Transpile_loop_append_error env ctx repo opts _ pre (u :: post) 0 s0 e hp,
          hp] at hall
        simp at hall

/-- C7, in the example world: the second of three units, `baz`, lists a missing revision. -/
theorem C7_fail_fast_witness :
    exampleEnv.PlainOpen plainOpts.GitRoot = .ok exampleRepo ∧
    (transpiler.Transpile exampleEnv neverDone { plainOpts with Inputs := ["foo.js"] }
      State.init).1 = .ok () ∧
    transpiler.Transpile exampleEnv neverDone
        { plainOpts with Inputs := ["foo.js"] ++ "baz.js" :: ["bar.js"] } State.init =
      (.error ("processing input: " ++ "getting commit c9: object not found"),
        (transpiler.processInput exampleEnv exampleRepo plainOpts "baz.js" plainOpts.writer
          (transpiler.Transpile exampleEnv neverDone { plainOpts with Inputs := ["foo.js"] }
            State.init).2).2) :=
  ⟨rfl, rfl, (C7_fail_fast exampleEnv neverDone plainOpts exampleRepo ["foo.js"] ["bar.js"]
    "baz.js" State.init rfl).1 rfl rfl "getting commit c9: object not found" rfl⟩

/-! ## The two engines -/

theorem Sim_bind {α β : Type} {m n : Run α} {f g : α → Run β} (h : Sim m n)
    (hf : ∀ a, Sim (f a) (g a)) : Sim (m >>= f) (n >>= g) := by
  intro s t hst
  obtain ⟨h1, h2⟩ := h s t hst
  rcases result_cases (m s).1 with ⟨a, ha⟩ | ⟨e, he⟩
  · rw [bind_of_ok ha, bind_of_ok (h1 ▸ ha)]
    exact hf a _ _ h2
  · rw [bind_of_error he, bind_of_error (h1 ▸ he)]
    exact ⟨rfl, h2⟩

theorem Sim_errorf {α : Type} {m n : Run α} (ctx : String) (h : Sim m n) :
    Sim (errorf ctx m) (errorf ctx n) := by
  intro s t hst
  obtain ⟨h1, h2⟩ := h s t hst
  rcases result_cases (m s).1 with ⟨a, ha⟩ | ⟨e, he⟩
  · rw [errorf_of_ok ha, errorf_of_ok (h1 ▸ ha)]
    exact ⟨rfl, h2⟩
  · rw [errorf_of_error he, errorf_of_error (h1 ▸ he)]
    exact ⟨rfl, h2⟩

theorem Sim_pure {α : Type} (a : α) : Sim (pure a : Run α) (pure a) :=
  fun _ _ hst => ⟨rfl, hst⟩

theorem Sim_fail {α : Type} (e : String) : Sim (fail e : Run α) (fail e) :=
  fun _ _ hst => ⟨rfl, hst⟩

theorem Sim_call {α : Type} (c : Call) (r : Except String α) : Sim (call c r) (call c r) := by
  intro s t hst
  exact ⟨rfl, by simp [call, State.log, Agree, hst.1, hst.2]⟩

theorem Sim_Create (env : Env) (path : String) : Sim (os.Create env path) (os.Create env path) := by
  intro s t hst
  obtain ⟨hf, hc⟩ := hst
  cases hw : env.Create path <;> simp [os.Create, hf, hc, hw, State.log, Agree]

theorem Sim_Write (env : Env) (output p : String) : Sim (Write env output p) (Write env output p) := by
  intro s t hst
  obtain ⟨hf, hc⟩ := hst
  rcases hw : env.writeFault output ((t.files output).getD "") p with _ | ⟨n, e⟩ <;>
    simp [Write, hf, hc, hw, State.log, Agree]

theorem Sim_Copy (env : Env) (output : String) (r : Reader) :
    Sim (io.Copy env output r) (io.Copy env output r) := by
  have h : io.Copy env output r =
      ((if r.data ≠ "" then Write env output r.data else pure ()) >>= fun _ =>
        match r.err with
        | some e => fail e
        | none => pure ()) := by
    unfold io.Copy
    by_cases hd : r.data ≠ "" <;> simp [hd]
  rw [h]
  apply Sim_bind
  · split
    · exact Sim_Write env output r.data
    · exact Sim_pure _
  · intro _
    cases r.err
    · exact Sim_pure _
    · exact Sim_fail _

theorem Sim_ReadFile (env : Env) (path : String) :
    Sim (Manifest.ReadFile env path) (Manifest.ReadFile env path) := by
  unfold Manifest.ReadFile
  apply Sim_bind
  · exact Sim_errorf _ (Sim_call _ _)
  · intro c
    apply Sim_errorf
    intro s t hst
    exact ⟨rfl, hst⟩

namespace transpiler

theorem Sim_Log (o1 o2 : Options) (str : String) : Sim (o1.Log str) (o2.Log str) := by
  intro s t hst
  refine ⟨by rw [Log_fst, Log_fst], ?_, ?_⟩
  · rw [Log_files, Log_files]; exact hst.1
  · rw [Log_calls, Log_calls]; exact hst.2

theorem Sim_body (env : Env) (repo : Repository) (o1 o2 : Options)
    (path output function : String) :
    Sim (transpileFile.body env repo o1 path output function)
      (transpileFile.body env repo o2 path output function) := by
  unfold transpileFile.body
  apply Sim_bind (Sim_Log o1 o2 _)
  intro _
  apply Sim_bind (Sim_errorf _ (Sim_call _ _))
  intro _
  apply Sim_bind (Sim_errorf _ (Sim_call _ _))
  intro _
  apply Sim_bind (Sim_errorf _ (Sim_call _ _))
  intro _
  exact Sim_errorf _ (Sim_Copy _ _ _)

theorem Sim_loop (env : Env) (repo : Repository) (o1 o2 : Options)
    (path output : String) (fs : List String) :
    Sim (transpileFile.loop env repo o1 path output fs)
      (transpileFile.loop env repo o2 path output fs) := by
  induction fs with
  | nil => exact Sim_pure _
  | cons f fs ih =>
    unfold transpileFile.loop
    exact Sim_bind (Sim_body env repo o1 o2 path output f) (fun _ => ih)

theorem Sim_transpileFile (env : Env) (repo : Repository) (o1 o2 : Options)
    (ha : o1.Annotate = o2.Annotate) (m : Manifest) (path output : String) :
    Sim (transpileFile env repo o1 m path output) (transpileFile env repo o2 m path output) := by
  have h : ∀ o : Options, transpileFile env repo o m path output =
      ((if o.Annotate = true then
          errorf "writing annotation: " (Write env output (annotationBlock m))
        else pure ()) >>= fun _ =>
        errorf "writing class definition: "
          (Write env output ("function " ++ m.Class ++ "() {}\n")) >>= fun _ =>
        transpileFile.loop env repo o path output m.Functions) := by
    intro o
    cases hb : o.Annotate <;> simp [transpileFile, hb, header_eq, run_pure_bind]
  rw [h o1, h o2, ha]
  apply Sim_bind
  · split
    · exact Sim_errorf _ (Sim_Write _ _ _)
    · exact Sim_pure _
  · intro _
    exact Sim_bind (Sim_errorf _ (Sim_Write _ _ _))
      (fun _ => Sim_loop env repo o1 o2 path output _)

theorem Sim_processInput (env : Env) (repo : Repository) (o1 o2 : Options)
    (ha : o1.Annotate = o2.Annotate) (hs : o1.Strict = o2.Strict)
    (hr : o1.OutputRoot = o2.OutputRoot) (input : String) (combinedOutput : Option String) :
    Sim (processInput env repo o1 input combinedOutput)
      (processInput env repo o2 input combinedOutput) := by
  rw [processInput_eq, processInput_eq, hs, hr]
  apply Sim_bind (Sim_errorf _ (Sim_ReadFile _ _))
  intro m
  split
  · exact Sim_fail _
  · cases combinedOutput with
    | some output => exact Sim_transpileFile env repo o1 o2 ha m _ _
    | none =>
      apply Sim_bind (Sim_errorf _ (Sim_call _ _))
      intro _
      apply Sim_bind (Sim_errorf _ (Sim_Create _ _))
      intro _
      exact Sim_transpileFile env repo o1 o2 ha m _ _

theorem Sim_Transpile_loop (env : Env) (ctx : Ctx) (repo : Repository) (o1 o2 : Options)
    (ha : o1.Annotate = o2.Annotate) (hs : o1.Strict = o2.Strict)
    (hr : o1.OutputRoot = o2.OutputRoot) (combinedOutput : Option String) (xs : List String) :
    ∀ i, Sim (Transpile.loop env ctx repo o1 combinedOutput i xs)
      (Transpile.loop env ctx repo o2 combinedOutput i xs) := by
  induction xs with
  | nil => intro i; exact Sim_pure _
  | cons x xs ih =>
    intro i
    unfold Transpile.loop
    apply Sim_bind
    · unfold Transpile.body
      cases ctx i
      · exact Sim_errorf _ (Sim_processInput env repo o1 o2 ha hs hr x combinedOutput)
      · exact Sim_fail _
    · intro _
      exact ih _

theorem Sim_Transpile_verbose (env : Env) (ctx : Ctx) (opts : Options) (v1 v2 : Bool) :
    Sim (Transpile env ctx { opts with Verbose := v1 })
      (Transpile env ctx { opts with Verbose := v2 }) := by
  unfold Transpile
  apply Sim_bind (Sim_errorf _ (Sim_call _ _))
  intro repo
  apply Sim_bind
  · unfold Transpile.open
    split
    · apply Sim_bind (Sim_errorf _ (Sim_call _ _))
      intro _
      apply Sim_bind (Sim_errorf _ (Sim_Create _ _))
      intro _
      exact Sim_pure _
    · apply Sim_bind (Sim_errorf _ (Sim_call _ _))
      intro _
      exact Sim_pure _
  · intro co
    exact Sim_Transpile_loop env ctx repo { opts with Verbose := v1 } { opts with Verbose := v2 }
      rfl rfl rfl co opts.Inputs 0

end transpiler

namespace jdsl

theorem Transpile_loop_eq_new (env : Env) (ctx : Ctx) (repo : Repository) (o : Options)
    (hctx : ∀ i, ctx i = none) (xs : List String) :
    ∀ i, Transpile.loop env repo o xs =
      transpiler.Transpile.loop env ctx repo (o.toNew true) none i xs := by
  induction xs with
  | nil => intro i; rfl
  | cons x xs ih =>
    intro i
    unfold Transpile.loop transpiler.Transpile.loop transpiler.Transpile.body
    rw [hctx i, ← ih (i + 1), processInput_eq_new]

theorem Transpile_eq_new (env : Env) (ctx : Ctx) (o : Options) (hctx : ∀ i, ctx i = none) :
    Transpile env ctx o = transpiler.Transpile env ctx (o.toNew true) := by
  unfold Transpile transpiler.Transpile
  have hopen : transpiler.Transpile.open env (o.toNew true) =
      (errorf "creating output directory: " (os.MkdirAll env o.OutputRoot) >>= fun _ =>
        (pure none : Run (Option String))) := rfl
  rw [hopen]
  simp only [run_bind_assoc, run_pure_bind, ← Transpile_loop_eq_new env ctx _ o hctx _ 0]
  rfl

end jdsl

/-- C10, as stated, fails: in per-unit mode with the signal never raised the two engines
still differ in what they print.  For the unit `foo` of the example world the older engine
prints one progress line per revision, and the newer engine, with `Verbose` not set, prints
nothing. -/
theorem C10_logging_counterexample :
    (jdsl.Transpile exampleEnv neverDone oldFooOpts State.init).2.stdout =
      "Reading foo.js from commit c1...\nReading foo.js from commit c2...\n"
        ++ "Reading foo.js from commit c1...\n" ∧
    (transpiler.Transpile exampleEnv neverDone (oldFooOpts.toNew false) State.init).2.stdout = "" ∧
    (jdsl.Transpile exampleEnv neverDone oldFooOpts State.init).2.stdout ≠
      (transpiler.Transpile exampleEnv neverDone (oldFooOpts.toNew false) State.init).2.stdout := by
  refine ⟨rfl, rfl, ?_⟩
  decide

/-- C10, amended. With the signal never raised and no combined output, the older engine and
the newer one return the same result (success, or the same error at the same unit and stage),
leave the same files with the same content and make the same calls on their collaborators,
for a run and for a single unit; a unit that succeeds is written to the path made of
`OutputRoot` and the input without its final extension plus `.js`.  With `Verbose` set the
two runs are the same altogether; without it they differ in the standard output, where the
older engine prints its progress lines always. -/
theorem C10_engines_agree (env : Env) (ctx : Ctx) (o : jdsl.Options) (verbose : Bool)
    (s : State) (hctx : ∀ i, ctx i = none) :
    (jdsl.Transpile env ctx o s).1 = (transpiler.Transpile env ctx (o.toNew verbose) s).1 ∧
    (jdsl.Transpile env ctx o s).2.files =
      (transpiler.Transpile env ctx (o.toNew verbose) s).2.files ∧
    (jdsl.Transpile env ctx o s).2.calls =
      (transpiler.Transpile env ctx (o.toNew verbose) s).2.calls ∧
    (verbose = true →
      jdsl.Transpile env ctx o s = transpiler.Transpile env ctx (o.toNew verbose) s) ∧
    ∀ (repo : Repository) (input : String),
      (jdsl.processInput env repo o input s).1 =
        (transpiler.processInput env repo (o.toNew verbose) input none s).1 ∧
      (jdsl.processInput env repo o input s).2.files =
        (transpiler.processInput env repo (o.toNew verbose) input none s).2.files ∧
      (jdsl.processInput env repo o input s).2.calls =
        (transpiler.processInput env repo (o.toNew verbose) input none s).2.calls ∧
      ∀ m contents, Loads env input m →
        ¬ (o.Strict = true ∧ m.File ≠ filepath.Base (manifestPath input)) →
        List.Forall₂ (Resolves env repo (jsPath input)) m.Functions contents →
        Writable env o.OutputRoot input none →
        (jdsl.processInput env repo o input s).2.files (env.Join o.OutputRoot (jsPath input)) =
          some (unitBytes o.Annotate m contents) := by
  have hrun := transpiler.Sim_Transpile_verbose env ctx (o.toNew true) true verbose s s
    ⟨rfl, rfl⟩
  rw [jdsl.Transpile_eq_new env ctx o hctx]
  refine ⟨hrun.1, hrun.2.1, hrun.2.2, ?_, ?_⟩
  · intro hv
    rw [hv]
  · intro repo input
    have hunit := transpiler.Sim_processInput env repo (o.toNew true) (o.toNew verbose) rfl rfl
      rfl input none s s ⟨rfl, rfl⟩
    rw [jdsl.processInput_eq_new]
    refine ⟨hunit.1, hunit.2.1, hunit.2.2, ?_⟩
    intro m contents hl hcheck hr hw
    exact (transpiler.processInput_complete env repo (o.toNew true) input none m contents s hl
      hcheck hr hw).2.2 rfl

/-- C10 amended, at the unit `foo` of the example world, for the newer engine without
`Verbose`. -/
theorem C10_engines_agree_witness :
    (∀ i, neverDone i = none) ∧
    (jdsl.Transpile exampleEnv neverDone oldFooOpts State.init).1 =
      (transpiler.Transpile exampleEnv neverDone (oldFooOpts.toNew false) State.init).1 ∧
    (jdsl.Transpile exampleEnv neverDone oldFooOpts State.init).2.files =
      (transpiler.Transpile exampleEnv neverDone (oldFooOpts.toNew false) State.init).2.files ∧
    (jdsl.Transpile exampleEnv neverDone oldFooOpts State.init).2.files "dist/foo.js" =
      some ("function Foo() {}\nFoo.prototype.one = 1;\nFoo.prototype.two = 2;\n"
        ++ "Foo.prototype.one = 1;\n") :=
  have h := C10_engines_agree exampleEnv neverDone oldFooOpts false State.init (fun _ => rfl)
  ⟨fun _ => rfl, h.1, h.2.1, rfl⟩

end JDSL
